import Mathlib

/-!
# oai: chat view controller and history browser

A shallow embedding of `cmd/chat.go` and `cmd/history.go`.

* Go strings are Lean `String`s; text functions work on the character list.
* A Go panic (index or slice bound out of range) is the result `none`.
* The widgets and libraries the two files call (textarea, viewport, list,
  glamour, the chat session, `encoding/json`) are not part of the repository:
  a widget is modelled by the value it holds, and each library call whose
  result the code only passes on is a field of `Env` / `HistEnv`; what the
  input box holds after `SetValue`, which sanitizes and cuts its argument, is
  one of them.
-/

namespace Oai

/-! ## Text helpers (Go `strings`, `bufio`, `path`) -/

/-- Go `unicode.IsSpace`: the code points with the White_Space property. -/
def isSpace (c : Char) : Bool :=
  let n := c.toNat
  (9 ≤ n && n ≤ 13) || n = 32 || n = 0x85 || n = 0xA0 || n = 0x1680 ||
  (0x2000 ≤ n && n ≤ 0x200A) || n = 0x2028 || n = 0x2029 || n = 0x202F ||
  n = 0x205F || n = 0x3000

/-- Drops the leading white space of a character list. -/
def trimLeft : List Char → List Char
  | [] => []
  | c :: cs => if isSpace c then trimLeft cs else c :: cs

/-- Go `strings.TrimSpace`: leading and trailing white space removed. -/
def TrimSpace (s : String) : String :=
  String.mk (trimLeft (trimLeft s.data).reverse).reverse

/-- Go slice indexing `l[i]` with an `int` index: `none` is the
index-out-of-range panic. -/
def index (l : List String) (i : Int) : Option String :=
  if i < 0 then none else l[i.toNat]?

/-- Go `bufio.MaxScanTokenSize`, the largest buffer a default `Scanner` uses. -/
def MaxScanTokenSize : Nat := 64 * 1024

/-- Go `bufio.ScanLines` over the whole input: the text between newlines; a
last line without a newline is a line, an empty rest is not. The first
argument holds the current line, last character first. -/
def scanLinesAux : List Char → List Char → List (List Char)
  | cur, [] => if cur = [] then [] else [cur.reverse]
  | cur, c :: rest =>
    if c = '\n' then cur.reverse :: scanLinesAux [] rest
    else scanLinesAux (c :: cur) rest

/-- Go `dropCR`: one carriage return at the end of a line is dropped. -/
def dropCR (l : List Char) : List Char :=
  match l.reverse with
  | '\r' :: r => r.reverse
  | _ => l

/-- What the loop `for scanner.Scan() { ... scanner.Text() ... }` sees: the
tokens in order, and whether the scanner stopped with `ErrTooLong`, which it
does at the first line that does not fit the buffer. -/
def scanTokens : List (List Char) → List String × Bool
  | [] => ([], false)
  | raw :: rest =>
    if MaxScanTokenSize ≤ (String.mk raw).utf8ByteSize then ([], true)
    else ((String.mk (dropCR raw)) :: (scanTokens rest).1, (scanTokens rest).2)

/-! ## Data model -/

/-- One entry of `session.Messages`. -/
structure Message where
  Role : String
  Content : String
deriving DecidableEq, Repr

/-- The part of `openai.ChatSession` the two files read. -/
structure ChatSession where
  Messages : List Message
  Model : String
deriving DecidableEq, Repr

/-- The part of `viewport.Model` the code touches. -/
structure Viewport where
  Width : Int
  Height : Int
  YOffset : Int
  content : String
deriving DecidableEq, Repr

/-- The chat `model` struct. `textarea` is the value the input box holds
(`Value()` / `SetValue`), `linesFile` the text of the line-history file, to which
`WriteString` appends (the scanner of `readLines` has read the file to its end). -/
structure model where
  viewport : Viewport
  textarea : String
  latest : String
  linesIdx : Int
  lines : List String
  linesFile : String
  lastInput : String
  session : ChatSession
deriving DecidableEq, Repr

/-- A `tea.Cmd`, as far as the code builds one. -/
inductive Cmd where
  | nil
  | Quit
  | tCmd
  | Batch (a b : Cmd)
deriving DecidableEq, Repr

/-- The `tea.Msg` values `Update` switches over. -/
inductive Msg where
  | WindowSizeMsg (Width Height : Int)
  | bool (b : Bool)
  | chatUpdate (s : String)
  | KeyMsg (key : String)
deriving DecidableEq, Repr

/-- The library calls of `chat.go` whose results the code passes on. -/
structure Env where
  /-- The value of the input box after `textarea.Update(msg)`. -/
  textareaUpdate : Msg → String → String
  /-- The value the input box holds after `textarea.SetValue(s)`: the widget, built by
  `textarea.New()` with its default limits, sanitizes the text and cuts it to its
  character limit, so this need not be `s`. -/
  SetValue : String → String
  /-- The result of `glamour.NewTermRenderer(WithWordWrap(width), ...)`: `none` is its
  error, otherwise the `Render` function, whose `none` is an error too. -/
  NewTermRenderer : Int → Option (String → Option String)
  sysStyle : String → String
  userStyle : String → String
  /-- The session after `session.Stream(ctx, val)`, and whether it returned an error. -/
  Stream : ChatSession → String → ChatSession × Bool
  SetYOffset : Viewport → Int → Viewport
  GotoBottom : Viewport → Viewport

/-! ## chat.go -/

/-- The method `model.readLines`, on the text of `lines.txt`. The second component is
`true` when it returns the scanner's error. -/
def readLines (file : String) (m : model) : model × Bool :=
  let r := scanTokens (scanLinesAux [] file.data)
  let lines := m.lines ++ r.1.map TrimSpace
  ({ m with linesFile := file, lines := lines, linesIdx := lines.length }, r.2)

/-- The method `model.updateLines`. The local `idx` is `m.linesIdx` through the
three assignments at the top; the snapshot `lastInput` is the value the input box holds
(`Value()`), taken before `SetValue`; the input box afterwards holds what `SetValue`
makes of the text it is given. -/
def updateLines (env : Env) (m : model) (direction : Int) : Option (model × Cmd) :=
  let idx := m.linesIdx + direction
  let idx := if idx < 0 then 0 else idx
  let idx := if idx > (m.lines.length : Int) then (m.lines.length : Int) else idx
  if direction < 0 then
    let lastInput := if idx = (m.lines.length : Int) - 1 then m.textarea else m.lastInput
    match index m.lines idx with
    | none => none
    | some l =>
      some ({ m with linesIdx := idx, lastInput := lastInput, textarea := env.SetValue l }, Cmd.nil)
  else
    if idx = (m.lines.length : Int) then
      some ({ m with linesIdx := idx, textarea := env.SetValue m.lastInput }, Cmd.nil)
    else
      match index m.lines idx with
      | none => none
      | some l => some ({ m with linesIdx := idx, textarea := env.SetValue l }, Cmd.nil)

/-- The loop of `updateViewport` over `session.Messages[1:]`: `none` when
`Render` fails. -/
def renderLoop (env : Env) (r : String → Option String) : List Message → String → Option String
  | [], vp => some vp
  | msg :: rest, vp =>
    if msg.Role = "system" then
      match r (TrimSpace msg.Content) with
      | none => none
      | some out => renderLoop env r rest (vp ++ env.sysStyle "Assistant: " ++ out)
    else if msg.Role = "user" then
      match r (TrimSpace msg.Content) with
      | none => none
      | some out => renderLoop env r rest (vp ++ env.userStyle "You: " ++ out)
    else renderLoop env r rest vp

/-- The method `model.updateViewport`. -/
def updateViewport (env : Env) (m : model) : Option (model × Cmd) :=
  match env.NewTermRenderer m.viewport.Width with
  | none => some (m, Cmd.Quit)
  | some r =>
    match m.session.Messages with
    | [] => none
    | first :: rest =>
      match renderLoop env r rest "" with
      | none => some (m, Cmd.Quit)
      | some vp =>
        let last := ((first :: rest).getLast?).getD first
        if m.latest ≠ "" ∧ m.latest ≠ last.Content then
          match r m.latest with
          | none => some (m, Cmd.Quit)
          | some out =>
            let vp := vp ++ env.sysStyle "Assistant: " ++ out
            some ({ m with viewport := env.GotoBottom { m.viewport with content := vp } }, Cmd.nil)
        else
          some ({ m with viewport := env.GotoBottom { m.viewport with content := vp } }, Cmd.nil)

/-- The method `model.Update`. Where the source calls `m.updateViewport()` and drops the
result, the call works on a copy: only its panic reaches the caller. -/
def Update (env : Env) (msg : Msg) (m : model) : Option (model × Cmd) :=
  let m := { m with textarea := env.textareaUpdate msg m.textarea }
  match msg with
  | Msg.WindowSizeMsg w h =>
    let m := { m with viewport := { m.viewport with Width := w, Height := h - 3 } }
    match updateViewport env m with
    | none => none
    | some _ => some (m, Cmd.tCmd)
  | Msg.bool _ => updateViewport env { m with latest := "" }
  | Msg.chatUpdate s => updateViewport env { m with latest := m.latest ++ s }
  | Msg.KeyMsg key =>
    if key = "up" then
      match updateLines env m (-1) with
      | none => none
      | some (m, c) => some (m, Cmd.Batch Cmd.tCmd c)
    else if key = "down" then
      match updateLines env m 1 with
      | none => none
      | some (m, c) => some (m, Cmd.Batch Cmd.tCmd c)
    else if key = "ctrl+u" then
      some ({ m with viewport := env.SetYOffset m.viewport (m.viewport.YOffset - 1) }, Cmd.tCmd)
    else if key = "ctrl+d" then
      some ({ m with viewport := env.SetYOffset m.viewport (m.viewport.YOffset + 1) }, Cmd.tCmd)
    else if key = "pageup" then
      some ({ m with viewport :=
        env.SetYOffset m.viewport (m.viewport.YOffset - m.viewport.Height) }, Cmd.tCmd)
    else if key = "pagedown" then
      some ({ m with viewport :=
        env.SetYOffset m.viewport (m.viewport.YOffset + m.viewport.Height) }, Cmd.tCmd)
    else if key = "enter" then
      let val := TrimSpace m.textarea
      if val = "" then some (m, Cmd.nil)
      else
        let m := { m with lines := m.lines ++ [val] }
        let m := { m with linesFile := m.linesFile ++ (val ++ "\n") }
        let s := env.Stream m.session val
        let m := { m with session := s.1 }
        if s.2 then some (m, Cmd.Quit)
        else
          let m := { m with textarea := "" }
          match updateViewport env m with
          | none => none
          | some _ => some (m, Cmd.tCmd)
    else if key = "ctrl+c" ∨ key = "esc" then some (m, Cmd.Quit)
    else some (m, Cmd.tCmd)

/-- The function `newModel`, given the text of `lines.txt`: `readLines`, whose error
it drops. The geometry set on the widgets is not part of the model. -/
def newModel (file : String) (sess : ChatSession) : model :=
  (readLines file
    { viewport := { Width := 80, Height := 50, YOffset := 0, content := "" }
      textarea := "", latest := "", linesIdx := 0, lines := [], linesFile := ""
      lastInput := "", session := sess }).1

/-- A sequence of recall moves, each a direction. -/
def recallMoves (env : Env) : List Int → model → Option model
  | [], m => some m
  | d :: ds, m =>
    match updateLines env m d with
    | none => none
    | some (m', _) => recallMoves env ds m'

/-- A sequence of messages handled by `Update` one after the other. -/
def runUpdates (env : Env) : List Msg → model → Option model
  | [], m => some m
  | msg :: msgs, m =>
    match Update env msg m with
    | none => none
    | some (m', _) => runUpdates env msgs m'

/-! ## Go library functions used by history.go (`path`, `time`, `sort`) -/

/-- The scan of Go `path.Ext` from the end of the path: the second argument is the
path, last character first, the first the characters already passed. -/
def extRev : List Char → List Char → List Char
  | _, [] => []
  | acc, c :: rest =>
    if c = '/' then [] else if c = '.' then '.' :: acc else extRev (c :: acc) rest

/-- Go `path.Ext`: the suffix beginning at the final dot in the final element of the
path, empty if there is no dot. -/
def Ext (p : String) : String := String.mk (extRev [] p.data.reverse)

/-- A `time.Time` instant: seconds since 1970-01-01T00:00:00Z and nanoseconds. -/
structure Time where
  sec : Int
  nsec : Nat
deriving DecidableEq, Repr

/-- The zero `time.Time`: January 1, year 1, 00:00:00 UTC. -/
def zeroTime : Time := { sec := -62135596800, nsec := 0 }

/-- Go `Time.Before`. -/
def Time.Before (t u : Time) : Bool :=
  decide (t.sec < u.sec) || (decide (t.sec = u.sec) && decide (t.nsec < u.nsec))

/-- An ASCII digit. -/
def isDigit (c : Char) : Bool := 48 ≤ c.toNat && c.toNat ≤ 57

/-- The number a list of ASCII digits writes, `none` if one is not a digit. -/
def num (cs : List Char) : Option Nat :=
  if cs.all isDigit then some (cs.foldl (fun n c => 10 * n + (c.toNat - 48)) 0) else none

/-- Splits off the leading digits. -/
def takeDigits : List Char → List Char × List Char
  | [] => ([], [])
  | c :: cs => if isDigit c then (c :: (takeDigits cs).1, (takeDigits cs).2) else ([], c :: cs)

/-- Days from 1970-01-01 to the given civil date (proleptic Gregorian calendar). -/
def daysFromCivil (y m d : Int) : Int :=
  let y := if m ≤ 2 then y - 1 else y
  let era := (if 0 ≤ y then y else y - 399) / 400
  let yoe := y - era * 400
  let doy := (153 * (m + (if 2 < m then -3 else 9)) + 2) / 5 + d - 1
  let doe := yoe * 365 + yoe / 4 - yoe / 100 + doy
  era * 146097 + doe - 719468

/-- Days in a month of a year. -/
def daysIn (y m : Nat) : Nat :=
  if m = 2 then (if y % 4 = 0 ∧ (y % 100 ≠ 0 ∨ y % 400 = 0) then 29 else 28)
  else if m = 4 ∨ m = 6 ∨ m = 9 ∨ m = 11 then 30 else 31

/-- The zone of an RFC 3339 timestamp, which must be all of the remaining text (anything
after it is the error "extra text" of `time.Parse`): `Z`, or a sign, two digits, a colon
and two digits. The result is the offset in seconds. -/
def parseZone : List Char → Option Int
  | ['Z'] => some 0
  | [s, h1, h2, ':', m1, m2] =>
    if s = '+' ∨ s = '-' then
      match num [h1, h2], num [m1, m2] with
      | some h, some m =>
        if h ≤ 24 ∧ m ≤ 60 then
          some ((if s = '-' then -1 else 1) * ((h : Int) * 3600 + (m : Int) * 60))
        else none
      | _, _ => none
    else none
  | _ => none

/-- The nanoseconds a list of fraction digits writes (the digits after the ninth are
dropped). -/
def fracNanos (ds : List Char) : Nat :=
  ((ds.take 9) ++ List.replicate (9 - (ds.take 9).length) '0').foldl
    (fun n c => 10 * n + (c.toNat - 48)) 0

/-- What follows the seconds field: an optional fraction (a period or comma and at least
one digit), then the zone. The result is the nanoseconds and the zone offset. -/
def parseFracZone : List Char → Option (Nat × Int)
  | [] => none
  | c :: rest =>
    if (c = '.' ∨ c = ',') ∧ (takeDigits rest).1 ≠ [] then
      (parseZone (takeDigits rest).2).map (fun o => (fracNanos (takeDigits rest).1, o))
    else (parseZone (c :: rest)).map (fun o => (0, o))

/-- Go `time.Parse(time.RFC3339, s)` for the layout `2006-01-02T15:04:05Z07:00`, on
the timestamps the layout writes: `none` is a parse error. The model follows the
layout field by field; like `time.Parse` it rejects a value with text left over after
the zone. -/
def parseRFC3339 (s : String) : Option Time :=
  match s.data with
  | y1 :: y2 :: y3 :: y4 :: '-' :: mo1 :: mo2 :: '-' :: d1 :: d2 :: 'T' :: h1 :: h2 :: ':' ::
      mi1 :: mi2 :: ':' :: s1 :: s2 :: rest =>
    match num [y1, y2, y3, y4], num [mo1, mo2], num [d1, d2], num [h1, h2], num [mi1, mi2],
        num [s1, s2], parseFracZone rest with
    | some y, some mo, some d, some h, some mi, some sc, some (ns, off) =>
      if 1 ≤ mo ∧ mo ≤ 12 ∧ 1 ≤ d ∧ d ≤ daysIn y mo ∧ h < 24 ∧ mi < 60 ∧ sc < 60 then
        some { sec := daysFromCivil y mo d * 86400 + (h : Int) * 3600 + (mi : Int) * 60 +
                 (sc : Int) - off
               nsec := ns }
      else none
    | _, _, _, _, _, _, _ => none
  | _ => none

/-- One step of the insertion sort of Go `sort.Slice`: `x` moves left past every
element it is `less` than. The list is the sorted prefix, last element first. -/
def insertRev {α : Type} (less : α → α → Bool) (x : α) : List α → List α
  | [] => [x]
  | y :: ys => if less x y then y :: insertRev less x ys else x :: y :: ys

/-- The insertion sort of Go `sort.Slice`; the second argument is the sorted prefix,
last element first. -/
def insertionSortRev {α : Type} (less : α → α → Bool) : List α → List α → List α
  | [], acc => acc.reverse
  | x :: xs, acc => insertionSortRev less xs (insertRev less x acc)

/-- Go `sort.Slice(items, less)`. Go runs this insertion sort on slices of at most 12
elements; on longer slices it runs a quicksort whose result is ordered by `less` all
the same and may differ in the order of elements neither of which is `less` than the
other. The theorems use of it that the result is a permutation of the slice. -/
def sortSlice {α : Type} (less : α → α → Bool) (l : List α) : List α :=
  insertionSortRev less l []

/-! ## history.go -/

/-- The struct `histitem`; `sess` is `none` for the nil pointer. -/
structure histitem where
  file : String
  date : Time
  sess : Option ChatSession
deriving DecidableEq, Repr

/-- One entry of the history directory as `os.ReadDir` and `os.OpenFile` show it: the
name, the bytes of the file, and whether opening it fails. -/
structure DirEntry where
  Name : String
  content : String
  openErr : Bool
deriving DecidableEq, Repr

/-- The size `f.Info()` reports (the call is taken to succeed: the entry was just
listed). -/
def DirEntry.Size (f : DirEntry) : Nat := f.content.utf8ByteSize

/-- The library calls of `history.go` whose results the code passes on; the list widget
`list.Model` of type `L` is used through its methods only. -/
structure HistEnv (L : Type) where
  /-- The result of `json.NewDecoder(f).Decode(&hi.sess)` on the bytes of a file:
  `none` is an error, `some none` the nil pointer a JSON `null` leaves. -/
  decode : String → Option (Option ChatSession)
  /-- The zero `list.Model`. -/
  zero : L
  Items : L → Option (List histitem)
  New : List histitem → L
  SetTitle : L → String → L
  SetItems : L → List histitem → L
  SetHeight : L → Int → L
  Index : L → Int
  Select : L → Int → L
  SelectedItem : L → Option histitem
  listUpdate : Msg → L → L
  cvUpdate : Msg → Viewport → Viewport
  /-- The result of `glamour.NewTermRenderer` with `WithPreservedNewLines`. -/
  NewTermRenderer : Int → Option (String → Option String)
  /-- The border sizes `GetBorderLeftSize()` and `GetBorderTopSize()` of the styles. -/
  borderLeft : Int
  borderTop : Int

/-- The struct `histModel`. -/
structure histModel (L : Type) where
  cvToggle : Bool
  list : L
  cv : Viewport
deriving DecidableEq, Repr

/-- The constant `listWidth`. -/
def listWidth : Int := 40

/-- The loop of `loadList` over the directory entries: the items appended so far, or the
error the function returns. -/
def loadLoop {L : Type} (henv : HistEnv L) : List DirEntry → List histitem →
    Except String (List histitem)
  | [], items => Except.ok items
  | f :: fs, items =>
    if Ext f.Name ≠ ".json" then loadLoop henv fs items
    else if f.Size = 0 then loadLoop henv fs items
    else
      let date := match parseRFC3339 f.Name with
        | some t => t
        | none => zeroTime
      if f.openErr then Except.error "could not open history file"
      else
        match henv.decode f.content with
        | none => Except.error "could not decode history file"
        | some sess => loadLoop henv fs (items ++ [{ file := f.Name, date := date, sess := sess }])

/-- The items `loadList` hands to the list widget: the loop, then `sort.Slice` by
`date.Before`. -/
def loadItems {L : Type} (henv : HistEnv L) (dir : List DirEntry) : Except String (List histitem) :=
  match loadLoop henv dir [] with
  | Except.error e => Except.error e
  | Except.ok items => Except.ok (sortSlice (fun a b => a.date.Before b.date) items)

/-- The method `histModel.loadList` on the entries of the history directory (`none` when
`os.ReadDir` fails): the model afterwards, and the error if it returns one. -/
def loadList {L : Type} (henv : HistEnv L) (dir : Option (List DirEntry)) (m : histModel L) :
    histModel L × Option String :=
  match dir with
  | none => (m, some "could not read history directory")
  | some fs =>
    match loadItems henv fs with
    | Except.error e => (m, some e)
    | Except.ok items =>
      if henv.Items m.list = none then
        ({ m with list := henv.SetTitle (henv.New items) "Chat History" }, none)
      else
        ({ m with list := henv.SetItems m.list items }, none)

/-- The entries `loadList` does not skip: the extension is `.json` and the size is not
zero. -/
def candidate (f : DirEntry) : Bool := decide (Ext f.Name = ".json") && decide (f.Size ≠ 0)

/-- The item `loadList` builds from an entry it does not skip, when the file opens and
decodes. -/
def itemOf {L : Type} (henv : HistEnv L) (f : DirEntry) : Option histitem :=
  if candidate f = true ∧ f.openErr = false then
    (henv.decode f.content).map (fun sess =>
      { file := f.Name
        date := match parseRFC3339 f.Name with
          | some t => t
          | none => zeroTime
        sess := sess })
  else none

/-- Go `strings.ReplaceAll(s, "\t", "  ")`. -/
def replaceTabs (s : String) : String :=
  String.mk (s.data.flatMap (fun c => if c = '\t' then [' ', ' '] else [c]))

/-- The method `histModel.updateChatModel`; `none` is the panic on a nil session or on
an empty message list. The loop is the one of `updateViewport`, over the messages with
their tabs replaced. -/
def updateChatModel {L : Type} (env : Env) (henv : HistEnv L) (s : Option ChatSession)
    (m : histModel L) : Option (histModel L × Cmd) :=
  match henv.NewTermRenderer m.cv.Width with
  | none => some (m, Cmd.Quit)
  | some r =>
    match s with
    | none => none
    | some s =>
      match s.Messages with
      | [] => none
      | _ :: rest =>
        match renderLoop env r
            (rest.map (fun msg => { msg with Content := replaceTabs msg.Content })) "" with
        | none => some (m, Cmd.Quit)
        | some vp => some ({ m with cv := { m.cv with content := vp } }, Cmd.nil)

/-- Go `os.Remove` of the file with the given name: `none` when there is no such file. -/
def removeFile (name : String) : List DirEntry → Option (List DirEntry)
  | [] => none
  | f :: fs => if f.Name = name then some fs else (removeFile name fs).map (fun r => f :: r)

/-- The method `histModel.rm`: the directory and the model afterwards, and the error if
it returns one. -/
def rm {L : Type} (henv : HistEnv L) (dir : List DirEntry) (m : histModel L) (i : histitem) :
    List DirEntry × histModel L × Option String :=
  match removeFile i.file dir with
  | none => (dir, m, some "could not remove history file")
  | some dir' =>
    let idx := henv.Index m.list
    match loadList henv (some dir') m with
    | (m', some _) => (dir', m', some "could not reload history list")
    | (m', none) => (dir', { m' with list := henv.Select m'.list idx }, none)

/-- The function `newHistModel`. -/
def newHistModel {L : Type} (henv : HistEnv L) (dir : Option (List DirEntry)) :
    histModel L × Option String :=
  let m : histModel L :=
    { cvToggle := false, list := henv.zero
      cv := { Width := 0, Height := 0, YOffset := 0, content := "" } }
  match loadList henv dir m with
  | (m', some e) => (m', some e)
  | (m', none) => ({ m' with cv := { Width := 100, Height := 100, YOffset := 0, content := "" } }, none)

/-- The method `histModel.Update`, with the history directory as state; `none` is a
panic. An error of `rm` is logged and dropped. -/
def histModel.Update {L : Type} (env : Env) (henv : HistEnv L) (dir : List DirEntry) (msg : Msg)
    (m : histModel L) : Option (List DirEntry × histModel L × Cmd) :=
  let step : Option (List DirEntry × histModel L) :=
    match msg with
    | Msg.WindowSizeMsg w h =>
      some (dir, { m with
        cv := { m.cv with Width := w - listWidth - henv.borderLeft * 2
                          Height := h - henv.borderTop * 2 }
        list := henv.SetHeight m.list (h - henv.borderTop * 2) })
    | Msg.KeyMsg key =>
      if key = "tab" then some (dir, { m with cvToggle := !m.cvToggle })
      else if key = "ctrl+c" ∨ key = "q" then none
      else if key = "delete" then
        match henv.SelectedItem m.list with
        | some item => some ((rm henv dir m item).1, (rm henv dir m item).2.1)
        | none => some (dir, m)
      else some (dir, m)
    | _ => some (dir, m)
  match step with
  | none => some (dir, m, Cmd.Quit)
  | some (dir, m) =>
    if m.cvToggle then some (dir, { m with cv := henv.cvUpdate msg m.cv }, Cmd.tCmd)
    else
      let m : histModel L := { m with list := henv.listUpdate msg m.list }
      match henv.SelectedItem m.list with
      | some item =>
        match updateChatModel env henv item.sess m with
        | none => none
        | some (m', _) => some (dir, m', Cmd.tCmd)
      | none => some (dir, m, Cmd.tCmd)

/-- What the code relies on of the methods of `list.Model`: `SetItems` makes `Items`
report the items given, `Select` makes `Index` report the index given and leaves the
items alone. -/
structure ListLaws {L : Type} (henv : HistEnv L) : Prop where
  items_setItems : ∀ (l : L) (items : List histitem), henv.Items (henv.SetItems l items) = some items
  items_select : ∀ (l : L) (i : Int), henv.Items (henv.Select l i) = henv.Items l
  index_select : ∀ (l : L) (i : Int), henv.Index (henv.Select l i) = i

/-! ## Sample values -/

/-- A sample environment: the input box inserts a newline at the end of its text on
enter and leaves it alone otherwise, `SetValue` cuts the text to the 400 characters
of the default character limit, the renderers end the text with a newline, the styles
add nothing, and the session records the user message. -/
def sampleEnv : Env :=
  { textareaUpdate := fun msg v => if msg = Msg.KeyMsg "enter" then v ++ "\n" else v
    SetValue := fun s => String.mk (s.data.take 400)
    NewTermRenderer := fun _ => some (fun s => some (s ++ "\n"))
    sysStyle := fun s => s
    userStyle := fun s => s
    Stream := fun s val =>
      ({ s with Messages := s.Messages ++ [{ Role := "user", Content := val }] }, false)
    SetYOffset := fun vp y => { vp with YOffset := y }
    GotoBottom := fun vp => vp }

/-- A list widget that holds its items and the selected index as given. -/
structure SampleList where
  items : Option (List histitem)
  index : Int
deriving DecidableEq, Repr

/-- A sample environment for the history browser: a file decodes when its text is
`ok`, to a session with a system prompt and one user message. -/
def sampleHistEnv : HistEnv SampleList :=
  { decode := fun s =>
      if s = "ok" then
        some (some { Messages := [{ Role := "system", Content := "P" },
                                   { Role := "user", Content := "hello" }], Model := "m" })
      else none
    zero := { items := none, index := 0 }
    Items := fun l => l.items
    New := fun items => { items := some items, index := 0 }
    SetTitle := fun l _ => l
    SetItems := fun l items => { l with items := some items }
    SetHeight := fun l _ => l
    Index := fun l => l.index
    Select := fun l i => { l with index := i }
    SelectedItem := fun l =>
      match l.items with
      | none => none
      | some items => if l.index < 0 then none else items[l.index.toNat]?
    listUpdate := fun _ l => l
    cvUpdate := fun _ v => v
    NewTermRenderer := fun _ => some (fun s => some (s ++ "\n"))
    borderLeft := 1
    borderTop := 1 }

/-- A session with the system prompt only. -/
def sampleSession : ChatSession :=
  { Messages := [{ Role := "system", Content := "You are a helpful AI assistant." }]
    Model := "gpt" }

/-- The model with stored lines a, b, c at the sentinel cursor with draft "dr". -/
def recallDemo : model :=
  { viewport := { Width := 80, Height := 50, YOffset := 0, content := "" }
    textarea := "dr", latest := "", linesIdx := 3, lines := ["a", "b", "c"], linesFile := ""
    lastInput := "", session := { Messages := [], Model := "" } }

/-- A model in the middle of a turn: the transcript holds the system prompt and the
user message "hello", the stream buffer is empty. -/
def streamDemo : model :=
  { viewport := { Width := 80, Height := 50, YOffset := 0, content := "" }
    textarea := "", latest := "", linesIdx := 1, lines := ["hello"], linesFile := "hello\n"
    lastInput := ""
    session := { Messages := [{ Role := "system", Content := "You are a helpful AI assistant." },
                              { Role := "user", Content := "hello" }], Model := "gpt" } }

/-- A model at the fresh-draft cursor with one stored line and the draft "second". -/
def enterDemo : model :=
  { viewport := { Width := 80, Height := 50, YOffset := 0, content := "" }
    textarea := "second", latest := "", linesIdx := 1, lines := ["first"]
    linesFile := "first\n", lastInput := "", session := sampleSession }

/-- A history directory with a session file that decodes, a non-empty file with
invalid content, a zero-byte file and a file that is not a session file. -/
def mixedDir : List DirEntry :=
  [ { Name := "2024-01-01T10:00:00Z.json", content := "ok", openErr := false },
    { Name := "2024-01-02T10:00:00Z.json", content := "\x7b", openErr := false },
    { Name := "2024-01-03T10:00:00Z.json", content := "", openErr := false },
    { Name := "lines.txt", content := "hello\n", openErr := false } ]

/-- A history directory with two session files that decode, a zero-byte file and the
line-history file. -/
def goodDir : List DirEntry :=
  [ { Name := "2024-01-01T10:00:00Z.json", content := "ok", openErr := false },
    { Name := "2024-01-02T10:00:00Z.json", content := "ok", openErr := false },
    { Name := "2024-01-03T10:00:00Z.json", content := "", openErr := false },
    { Name := "lines.txt", content := "hello\n", openErr := false } ]

/-- The history model before the first load. -/
def histZero : histModel SampleList :=
  { cvToggle := false, list := sampleHistEnv.zero
    cv := { Width := 0, Height := 0, YOffset := 0, content := "" } }

/-- A model whose transcript holds the system prompt, the user message "hello" and the
assistant message "Hi there"; the stream buffer is empty. -/
def renderDemo : model :=
  { viewport := { Width := 80, Height := 50, YOffset := 0, content := "" }
    textarea := "", latest := "", linesIdx := 1, lines := ["hello"], linesFile := "hello\n"
    lastInput := ""
    session := { Messages := [{ Role := "system", Content := "You are a helpful AI assistant." },
                              { Role := "user", Content := "hello" },
                              { Role := "assistant", Content := "Hi there" }], Model := "gpt" } }

/-- The two items `loadList` builds from `goodDir`. -/
def goodItems : List histitem :=
  [ { file := "2024-01-01T10:00:00Z.json", date := zeroTime
      sess := some { Messages := [{ Role := "system", Content := "P" },
                                  { Role := "user", Content := "hello" }], Model := "m" } },
    { file := "2024-01-02T10:00:00Z.json", date := zeroTime
      sess := some { Messages := [{ Role := "system", Content := "P" },
                                  { Role := "user", Content := "hello" }], Model := "m" } } ]

/-- The history model after `goodDir` was loaded, with the second (last) item
selected. -/
def loadedTwo : histModel SampleList :=
  { cvToggle := false, list := { items := some goodItems, index := 1 }
    cv := { Width := 100, Height := 100, YOffset := 0, content := "" } }

/-- The last item of `goodItems`. -/
def lastGoodItem : histitem :=
  { file := "2024-01-02T10:00:00Z.json", date := zeroTime
    sess := some { Messages := [{ Role := "system", Content := "P" },
                                { Role := "user", Content := "hello" }], Model := "m" } }

/-- A model whose transcript holds the system prompt, the user message "hello" and the
reply "Hi there" recorded with the role `system`; the stream buffer holds the text
"more". -/
def replyDemo : model :=
  { viewport := { Width := 80, Height := 50, YOffset := 0, content := "" }
    textarea := "", latest := "more", linesIdx := 1, lines := ["hello"], linesFile := "hello\n"
    lastInput := ""
    session := { Messages := [{ Role := "system", Content := "You are a helpful AI assistant." },
                              { Role := "user", Content := "hello" },
                              { Role := "system", Content := "Hi there" }], Model := "gpt" } }

/-! ## Recall navigation -/

theorem index_natCast (l : List String) (i : Nat) : index l (i : Int) = l[i]? := by
  simp [index]

/-- One backward move from cursor `i + 1`. -/
theorem updateLines_back (env : Env) (m : model) (i : Nat) (hi : m.linesIdx = (i : Int) + 1)
    (hN : i + 1 ≤ m.lines.length) :
    updateLines env m (-1) = some ({ m with linesIdx := i, lastInput := if i + 1 = m.lines.length then m.textarea else m.lastInput, textarea := env.SetValue m.lines[i] }, Cmd.nil) := by
  have hlt : i < m.lines.length := by omega
  have hget : m.lines[i]? = some (m.lines[i]) := List.getElem?_eq_getElem hlt
  have h0 : ¬ ((i : Int) < 0) := by omega
  have h1 : ¬ ((m.lines.length : Int) < i) := by omega
  have h2 : ((i : Int) = (m.lines.length : Int) - 1) ↔ (i + 1 = m.lines.length) := by omega
  simp [updateLines, hi, h0, h1, h2, index_natCast, hget]

/-- A backward move at cursor `0` of a non-empty history stays at `0`. -/
theorem updateLines_back_zero (env : Env) (m : model) (hi : m.linesIdx = 0) (hN : 0 < m.lines.length) :
    updateLines env m (-1) = some ({ m with linesIdx := 0, lastInput := if m.lines.length = 1 then m.textarea else m.lastInput, textarea := env.SetValue m.lines[0] }, Cmd.nil) := by
  have hget : m.lines[0]? = some (m.lines[0]) := List.getElem?_eq_getElem hN
  have h1 : ¬ ((m.lines.length : Int) < 0) := by omega
  have h2 : ((0 : Int) = (m.lines.length : Int) - 1) ↔ (m.lines.length = 1) := by omega
  have h3 : index m.lines 0 = some (m.lines[0]) := by
    have := index_natCast m.lines 0
    simpa [hget] using this
  simp [updateLines, hi, h1, h2, h3]

/-- One forward move from a cursor `i` below the line count. -/
theorem updateLines_fwd (env : Env) (m : model) (i : Nat) (hi : m.linesIdx = (i : Int))
    (hN : i < m.lines.length) :
    updateLines env m 1 = some ({ m with linesIdx := (i : Int) + 1, textarea := env.SetValue (if h : i + 1 < m.lines.length then m.lines[i + 1] else m.lastInput) }, Cmd.nil) := by
  have h0 : ¬ ((i : Int) + 1 < 0) := by omega
  have h1 : ¬ ((m.lines.length : Int) < (i : Int) + 1) := by omega
  by_cases hc : i + 1 < m.lines.length
  · have hget : m.lines[i + 1]? = some (m.lines[i + 1]) := List.getElem?_eq_getElem hc
    have h2 : ¬ ((i : Int) + 1 = (m.lines.length : Int)) := by omega
    have h3 : index m.lines ((i : Int) + 1) = some (m.lines[i + 1]) := by
      have := index_natCast m.lines (i + 1)
      simpa [hget] using this
    simp [updateLines, hi, h0, h1, h2, h3, hc]
  · have h2 : ((i : Int) + 1 = (m.lines.length : Int)) := by omega
    simp [updateLines, hi, h0, h1, h2, hc]

/-- A forward move at the sentinel cursor stays there and loads the snapshot, whatever
the input box holds. -/
theorem updateLines_fwd_sentinel (env : Env) (m : model) (hi : m.linesIdx = (m.lines.length : Int)) :
    updateLines env m 1 = some ({ m with textarea := env.SetValue m.lastInput }, Cmd.nil) := by
  have h0 : ¬ ((m.lines.length : Int) + 1 < 0) := by omega
  simp [updateLines, hi, h0]

/-- On a non-empty history `updateLines` is total and clamped: from a cursor in `[0, N]`
a move by `-1` or `+1` returns, the new cursor is `cursor + direction` clamped to
`[0, N]`, and the input box is set (`SetValue`) to the stored line at the new cursor
below `N` and to the snapshot at `N`. -/
theorem updateLines_clamped_of_ne_nil (env : Env) (m : model) (d : Int) (hd : d = -1 ∨ d = 1)
    (h0 : 0 ≤ m.linesIdx) (hN : m.linesIdx ≤ (m.lines.length : Int)) (hne : m.lines ≠ []) :
    ∃ m', updateLines env m d = some (m', Cmd.nil) ∧
      m'.linesIdx = max 0 (min (m.linesIdx + d) (m.lines.length : Int)) ∧
      m'.lines = m.lines ∧
      (m'.linesIdx < (m.lines.length : Int) →
        (index m.lines m'.linesIdx).map env.SetValue = some m'.textarea) ∧
      (m'.linesIdx = (m.lines.length : Int) → m'.textarea = env.SetValue m'.lastInput) := by
  have hpos : 0 < m.lines.length := List.length_pos.mpr hne
  obtain ⟨i, hi⟩ : ∃ i : Nat, m.linesIdx = (i : Int) := ⟨m.linesIdx.toNat, by omega⟩
  have hiN : i ≤ m.lines.length := by omega
  rcases hd with rfl | rfl
  · rcases Nat.eq_zero_or_pos i with hz | hp
    · subst hz
      refine ⟨_, updateLines_back_zero env m (by simpa using hi) hpos, ?_, rfl, ?_, ?_⟩
      · simp only [hi]
        omega
      · intro _
        have := index_natCast m.lines 0
        simp only [Nat.cast_zero] at this
        simp [this, List.getElem?_eq_getElem hpos]
      · intro h
        simp only at h
        omega
    · obtain ⟨j, rfl⟩ : ∃ j, i = j + 1 := ⟨i - 1, by omega⟩
      refine ⟨_, updateLines_back env m j (by simpa using hi) hiN, ?_, rfl, ?_, ?_⟩
      · simp only [hi]
        omega
      · intro _
        simp [index_natCast, List.getElem?_eq_getElem (by omega : j < m.lines.length)]
      · intro h
        simp only at h
        omega
  · rcases Nat.lt_or_ge i m.lines.length with hlt | hge
    · refine ⟨_, updateLines_fwd env m i hi hlt, ?_, rfl, ?_, ?_⟩
      · simp only [hi]
        omega
      · intro h
        simp only at h
        have hc : i + 1 < m.lines.length := by omega
        have := index_natCast m.lines (i + 1)
        simp only [Nat.cast_add, Nat.cast_one] at this
        simp [hc, this, List.getElem?_eq_getElem hc]
      · intro h
        simp only at h
        have hc : ¬ (i + 1 < m.lines.length) := by omega
        simp [hc]
    · have hi' : m.linesIdx = (m.lines.length : Int) := by omega
      refine ⟨_, updateLines_fwd_sentinel env m hi', ?_, rfl, ?_, ?_⟩
      · simp only [hi']
        omega
      · intro h
        simp only at h
        omega
      · intro _
        rfl

/-- C6. On the empty history the recall-backward move does not complete: whatever the
cursor, `updateLines(-1)` clamps it to `0` and then indexes `lines[0]` of an empty
slice, which is the index-out-of-range panic (`none`). -/
theorem updateLines_back_empty_history_panics (env : Env) (m : model) :
    updateLines env { m with lines := [] } (-1) = none := by
  have hnil : ∀ i : Int, index [] i = none := by
    intro i
    simp [index]
  simp [updateLines, hnil]

/-- C7. With one stored line, the moves backward, backward, forward from the sentinel
cursor end at the sentinel with the input box holding the stored line (as `SetValue`
leaves it), not the draft: the second backward move, made from the stored line at
cursor `0`, writes the snapshot. -/
theorem snapshot_overwritten_single_line (env : Env) (m : model) (line draft : String) :
    ∃ m', recallMoves env [-1, -1, 1]
        { m with lines := [line], linesIdx := 1, textarea := draft } = some m' ∧
      m'.linesIdx = 1 ∧ m'.textarea = env.SetValue (env.SetValue line) ∧
      m'.lastInput = env.SetValue line := by
  simp [recallMoves, updateLines, index]

/-- The stored line `a` and the draft `d`: after the moves backward, backward, forward
the input box holds `a`. -/
theorem snapshot_overwritten_a_d :
    (recallMoves sampleEnv [-1, -1, 1]
        { recallDemo with lines := ["a"], linesIdx := 1, textarea := "d" }).map
      (fun m => (m.linesIdx, m.textarea)) = some (1, "a") := by
  decide

/-! ## The draft snapshot with two or more stored lines -/

/-- With two or more stored lines and a draft `d` that `SetValue` leaves unchanged, a
move keeps this: the lines are the given ones, the cursor is in `[0, N]`, the snapshot
is `d`, and at the sentinel cursor the input box holds `d`. -/
theorem updateLines_keeps_snapshot (env : Env) (ls : List String) (d : String)
    (hsv : env.SetValue d = d) (hN : 2 ≤ ls.length)
    (s : model) (dir : Int) (hdir : dir = -1 ∨ dir = 1)
    (hl : s.lines = ls) (h0 : 0 ≤ s.linesIdx) (h1 : s.linesIdx ≤ (ls.length : Int))
    (hs : s.lastInput = d) (ht : s.linesIdx = (ls.length : Int) → s.textarea = d) :
    ∃ s', updateLines env s dir = some (s', Cmd.nil) ∧ s'.lines = ls ∧ 0 ≤ s'.linesIdx ∧
      s'.linesIdx ≤ (ls.length : Int) ∧ s'.lastInput = d ∧
      (s'.linesIdx = (ls.length : Int) → s'.textarea = d) := by
  subst hl
  obtain ⟨i, hi⟩ : ∃ i : Nat, s.linesIdx = (i : Int) := ⟨s.linesIdx.toNat, by omega⟩
  have hiN : i ≤ s.lines.length := by omega
  rcases hdir with rfl | rfl
  · rcases Nat.eq_zero_or_pos i with hz | hp
    · subst hz
      refine ⟨_, updateLines_back_zero env s (by simpa using hi) (by omega), rfl, ?_, ?_, ?_, ?_⟩
      · simp
      · simp
      · have hne : ¬ (s.lines.length = 1) := by omega
        simp [hne, hs]
      · intro h
        simp only at h
        omega
    · obtain ⟨j, rfl⟩ : ∃ j, i = j + 1 := ⟨i - 1, by omega⟩
      refine ⟨_, updateLines_back env s j (by simpa using hi) hiN, rfl, ?_, ?_, ?_, ?_⟩
      · simp
      · simp only
        omega
      · by_cases hc : j + 1 = s.lines.length
        · simp only [hc, if_true]
          exact ht (by rw [hi, ← hc])
        · simp [hc, hs]
      · intro h
        simp only at h
        omega
  · rcases Nat.lt_or_ge i s.lines.length with hlt | hge
    · refine ⟨_, updateLines_fwd env s i hi hlt, rfl, ?_, ?_, hs, ?_⟩
      · simp only
        omega
      · simp only
        omega
      · intro h
        simp only at h
        have hc : ¬ (i + 1 < s.lines.length) := by omega
        simp [hc, hs, hsv]
    · have hi' : s.linesIdx = (s.lines.length : Int) := by omega
      refine ⟨_, updateLines_fwd_sentinel env s hi', rfl, h0, h1, hs, ?_⟩
      intro _
      simp [hs, hsv]

/-- With two or more stored lines and a snapshot equal to the draft, a draft `SetValue`
leaves unchanged, every sequence of recall moves returns, and whenever it ends at the
sentinel cursor the input box holds the draft. -/
theorem recallMoves_keeps_snapshot (env : Env) (ls : List String) (d : String)
    (hsv : env.SetValue d = d) (hN : 2 ≤ ls.length)
    (moves : List Int) : ∀ (s : model), (∀ dir ∈ moves, dir = -1 ∨ dir = 1) →
    s.lines = ls → 0 ≤ s.linesIdx → s.linesIdx ≤ (ls.length : Int) → s.lastInput = d →
    (s.linesIdx = (ls.length : Int) → s.textarea = d) →
    ∃ s', recallMoves env moves s = some s' ∧
      (s'.linesIdx = (ls.length : Int) → s'.textarea = d) := by
  induction moves with
  | nil =>
    intro s _ _ _ _ _ ht
    exact ⟨s, rfl, ht⟩
  | cons dir rest ih =>
    intro s hm hl h0 h1 hs ht
    obtain ⟨s1, hstep, hl1, h01, h11, hs1, ht1⟩ :=
      updateLines_keeps_snapshot env ls d hsv hN s dir (hm dir (List.mem_cons_self dir rest))
        hl h0 h1 hs ht
    obtain ⟨s2, hrun, hfin⟩ :=
      ih s1 (fun x hx => hm x (List.mem_cons_of_mem dir hx)) hl1 h01 h11 hs1 ht1
    exact ⟨s2, by simp only [recallMoves, hstep]; exact hrun, hfin⟩

/-- With two or more stored lines, from the sentinel cursor with a draft `SetValue`
leaves unchanged, every sequence of recall moves that begins with a backward move
returns, and if it ends at the sentinel cursor the input box holds the original
draft. -/
theorem snapshot_preserved_of_two_lines (env : Env) (m : model) (rest : List Int)
    (hsv : env.SetValue m.textarea = m.textarea)
    (hN : 2 ≤ m.lines.length) (hidx : m.linesIdx = (m.lines.length : Int))
    (hm : ∀ dir ∈ rest, dir = -1 ∨ dir = 1) :
    ∃ m', recallMoves env (-1 :: rest) m = some m' ∧
      (m'.linesIdx = (m.lines.length : Int) → m'.textarea = m.textarea) := by
  obtain ⟨j, hj⟩ : ∃ j, m.lines.length = j + 1 := ⟨m.lines.length - 1, by omega⟩
  have hstep := updateLines_back env m j (by rw [hidx, hj]; simp) (by omega)
  obtain ⟨m', hrun, hfin⟩ := recallMoves_keeps_snapshot env m.lines m.textarea hsv hN rest
    { m with linesIdx := (j : Int),
             lastInput := if j + 1 = m.lines.length then m.textarea else m.lastInput,
             textarea := env.SetValue m.lines[j] }
    hm rfl (by simp) (by simp only; omega) (by simp [hj]) (by intro h; simp only at h; omega)
  exact ⟨m', by simp only [recallMoves, hstep]; exact hrun, hfin⟩

/-! ## The chat view controller -/

/-- The keys up and down are `updateLines(-1)` and `updateLines(+1)` on the model whose
input box the textarea widget has handled the key in. -/
theorem Update_up_down (env : Env) (m : model) :
    Update env (Msg.KeyMsg "up") m =
        (updateLines env { m with textarea := env.textareaUpdate (Msg.KeyMsg "up") m.textarea }
          (-1)).map (fun p => (p.1, Cmd.Batch Cmd.tCmd p.2)) ∧
      Update env (Msg.KeyMsg "down") m =
        (updateLines env
          { m with textarea := env.textareaUpdate (Msg.KeyMsg "down") m.textarea }
          1).map (fun p => (p.1, Cmd.Batch Cmd.tCmd p.2)) := by
  have hk : ¬ ("down" = "up") := by decide
  constructor
  · simp only [Update, if_true]
    cases updateLines env
      { m with textarea := env.textareaUpdate (Msg.KeyMsg "up") m.textarea } (-1) <;> rfl
  · simp only [Update, hk, if_false, if_true]
    cases updateLines env
      { m with textarea := env.textareaUpdate (Msg.KeyMsg "down") m.textarea } 1 <;> rfl

/-- With a non-empty transcript `updateViewport` returns, and changes the viewport
only. -/
theorem updateViewport_some (env : Env) (m : model) (h : m.session.Messages ≠ []) :
    ∃ vp c, updateViewport env m = some ({ m with viewport := vp }, c) := by
  unfold updateViewport
  cases hr : env.NewTermRenderer m.viewport.Width with
  | none => exact ⟨m.viewport, Cmd.Quit, rfl⟩
  | some r =>
    cases hm : m.session.Messages with
    | nil => exact absurd hm h
    | cons first rest =>
      simp only
      cases hl : renderLoop env r rest "" with
      | none => exact ⟨m.viewport, Cmd.Quit, rfl⟩
      | some vp =>
        simp only
        split_ifs
        · cases r m.latest with
          | none => exact ⟨m.viewport, Cmd.Quit, rfl⟩
          | some out => exact ⟨_, Cmd.nil, rfl⟩
        · exact ⟨_, Cmd.nil, rfl⟩

/-- A stream delta is appended to `latest`; the transcript is not touched. -/
theorem Update_chatUpdate (env : Env) (m : model) (s : String) (h : m.session.Messages ≠ []) :
    ∃ m' c, Update env (Msg.chatUpdate s) m = some (m', c) ∧ m'.latest = m.latest ++ s ∧
      m'.session = m.session := by
  obtain ⟨vp, c, hv⟩ := updateViewport_some env
    { m with textarea := env.textareaUpdate (Msg.chatUpdate s) m.textarea,
             latest := m.latest ++ s } h
  refine ⟨{ m with textarea := env.textareaUpdate (Msg.chatUpdate s) m.textarea,
                   latest := m.latest ++ s, viewport := vp }, c, ?_, ?_, ?_⟩
  · simpa [Update] using hv
  · rfl
  · rfl

/-- The end of a stream clears `latest`; the transcript is not touched. -/
theorem Update_bool (env : Env) (m : model) (b : Bool) (h : m.session.Messages ≠ []) :
    ∃ m' c, Update env (Msg.bool b) m = some (m', c) ∧ m'.latest = "" ∧
      m'.session = m.session := by
  obtain ⟨vp, c, hv⟩ := updateViewport_some env
    { m with textarea := env.textareaUpdate (Msg.bool b) m.textarea, latest := "" } h
  refine ⟨{ m with textarea := env.textareaUpdate (Msg.bool b) m.textarea, latest := "",
                   viewport := vp }, c, ?_, ?_, ?_⟩
  · simpa [Update] using hv
  · rfl
  · rfl

/-- Go string concatenation of a list, head first. -/
theorem join_cons (d : String) (ds : List String) :
    String.join (d :: ds) = d ++ String.join ds := by
  apply String.ext
  simp [String.data_join, String.data_append]

/-- A run over two lists of messages is the run over the first, then over the second. -/
theorem runUpdates_append (env : Env) (a b : List Msg) : ∀ (m : model),
    runUpdates env (a ++ b) m = (runUpdates env a m).bind (runUpdates env b) := by
  induction a with
  | nil =>
    intro m
    rfl
  | cons x a ih =>
    intro m
    simp only [List.cons_append, runUpdates]
    cases Update env x m with
    | none => rfl
    | some p => exact ih p.1

/-- A run of stream deltas leaves their concatenation, in order, after what `latest`
held, and the transcript as it was. -/
theorem runUpdates_deltas (env : Env) (ds : List String) : ∀ (m : model),
    m.session.Messages ≠ [] →
    ∃ m', runUpdates env (ds.map Msg.chatUpdate) m = some m' ∧
      m'.latest = m.latest ++ String.join ds ∧ m'.session = m.session := by
  induction ds with
  | nil =>
    intro m _
    exact ⟨m, rfl, by simp [String.join], rfl⟩
  | cons d ds ih =>
    intro m h
    obtain ⟨m1, c, hu, hl, hs⟩ := Update_chatUpdate env m d h
    obtain ⟨m2, hr, hl2, hs2⟩ := ih m1 (by rw [hs]; exact h)
    refine ⟨m2, ?_, ?_, ?_⟩
    · simp only [List.map_cons, runUpdates, hu]
      exact hr
    · rw [hl2, hl]
      rw [join_cons, String.append_assoc]
    · rw [hs2, hs]

/-- C2 (as amended). From an empty stream buffer and a transcript that holds at least
the system prompt, handling `StreamDelta(d1)`, ..., `StreamDelta(dn)` leaves the buffer
`latest` equal to `d1 ++ ... ++ dn` in delivery order, and handling `StreamComplete`
after them leaves the buffer empty; every one of these `Update` calls returns, and none
of them touches the transcript: `Update` appends no message. -/
theorem stream_buffer_accumulates_then_clears (env : Env) (m : model) (ds : List String)
    (h0 : m.latest = "") (hne : m.session.Messages ≠ []) :
    ∃ m1 m2, runUpdates env (ds.map Msg.chatUpdate) m = some m1 ∧
      m1.latest = String.join ds ∧ m1.session = m.session ∧
      runUpdates env (ds.map Msg.chatUpdate ++ [Msg.bool true]) m = some m2 ∧
      m2.latest = "" ∧ m2.session = m.session := by
  obtain ⟨m1, hr, hl, hs⟩ := runUpdates_deltas env ds m hne
  obtain ⟨m2, c, hu, hl2, hs2⟩ := Update_bool env m1 true (by rw [hs]; exact hne)
  refine ⟨m1, m2, hr, ?_, hs, ?_, hl2, ?_⟩
  · rw [hl, h0]
    apply String.ext
    simp [String.data_append]
  · rw [runUpdates_append, hr]
    simp [runUpdates, hu]
  · rw [hs2, hs]

/-- The deltas `Hi` and ` there` after the user message `hello`. -/
theorem stream_buffer_accumulates_then_clears_witness :
    ∃ m1 m2, runUpdates sampleEnv (["Hi", " there"].map Msg.chatUpdate) streamDemo = some m1 ∧
      m1.latest = String.join ["Hi", " there"] ∧ m1.session = streamDemo.session ∧
      runUpdates sampleEnv (["Hi", " there"].map Msg.chatUpdate ++ [Msg.bool true]) streamDemo =
        some m2 ∧
      m2.latest = "" ∧ m2.session = streamDemo.session :=
  stream_buffer_accumulates_then_clears sampleEnv streamDemo ["Hi", " there"] (by decide)
    (by decide)

/-- C2 (counterexample). After the user message "hello", the deltas "Hi" and " there"
and the end of the stream are handled by `Update`: the transcript afterwards is the one
before, so it is not the one before with the assistant message "Hi there" appended. -/
theorem stream_complete_appends_no_message :
    (runUpdates sampleEnv [Msg.chatUpdate "Hi", Msg.chatUpdate " there", Msg.bool true]
        streamDemo).map (fun m => m.session.Messages) = some streamDemo.session.Messages ∧
      streamDemo.session.Messages ≠
        streamDemo.session.Messages ++ [{ Role := "assistant", Content := "Hi there" }] := by
  decide

/-- The enter key with a non-blank input: `Update` returns, the stored lines grow by the
trimmed input, the same text and a newline go to the file, and the cursor `linesIdx` is
left where it was. -/
theorem Update_enter (env : Env) (m : model)
    (hval : TrimSpace (env.textareaUpdate (Msg.KeyMsg "enter") m.textarea) ≠ "")
    (hs : (env.Stream m.session
      (TrimSpace (env.textareaUpdate (Msg.KeyMsg "enter") m.textarea))).1.Messages ≠ []) :
    ∃ m' c, Update env (Msg.KeyMsg "enter") m = some (m', c) ∧
      m'.lines = m.lines ++ [TrimSpace (env.textareaUpdate (Msg.KeyMsg "enter") m.textarea)] ∧
      m'.linesFile = m.linesFile ++
        (TrimSpace (env.textareaUpdate (Msg.KeyMsg "enter") m.textarea) ++ "\n") ∧
      m'.linesIdx = m.linesIdx := by
  have hk1 : ¬ ("enter" = "up") := by decide
  have hk2 : ¬ ("enter" = "down") := by decide
  have hk3 : ¬ ("enter" = "ctrl+u") := by decide
  have hk4 : ¬ ("enter" = "ctrl+d") := by decide
  have hk5 : ¬ ("enter" = "pageup") := by decide
  have hk6 : ¬ ("enter" = "pagedown") := by decide
  simp only [Update, hk1, hk2, hk3, hk4, hk5, hk6, if_false, if_true, hval]
  split_ifs with hq
  · exact ⟨_, _, rfl, rfl, rfl, rfl⟩
  · obtain ⟨vp, c, hv⟩ := updateViewport_some env
      { viewport := m.viewport, textarea := "", latest := m.latest, linesIdx := m.linesIdx,
        lines := m.lines ++ [TrimSpace (env.textareaUpdate (Msg.KeyMsg "enter") m.textarea)],
        linesFile :=
          m.linesFile ++ (TrimSpace (env.textareaUpdate (Msg.KeyMsg "enter") m.textarea) ++ "\n"),
        lastInput := m.lastInput,
        session :=
          (env.Stream m.session
            (TrimSpace (env.textareaUpdate (Msg.KeyMsg "enter") m.textarea))).1 } hs
    rw [hv]
    exact ⟨_, _, rfl, rfl, rfl, rfl⟩

/-- C5. The enter key leaves the recall cursor stale: for every model and every input
whose trimmed text is non-empty (with a session that still holds a message, so that the
re-render does not panic), `Update` returns with the stored lines grown by one line while
`linesIdx` keeps its old value, which is then below the new line count whenever it was
within the old one; the cursor is not set to the new end. -/
theorem enter_keeps_cursor (env : Env) (m : model)
    (hval : TrimSpace (env.textareaUpdate (Msg.KeyMsg "enter") m.textarea) ≠ "")
    (hs : (env.Stream m.session
      (TrimSpace (env.textareaUpdate (Msg.KeyMsg "enter") m.textarea))).1.Messages ≠ [])
    (hidx : m.linesIdx ≤ (m.lines.length : Int)) :
    ∃ m' c, Update env (Msg.KeyMsg "enter") m = some (m', c) ∧
      m'.lines.length = m.lines.length + 1 ∧ m'.linesIdx = m.linesIdx ∧
      m'.linesIdx < (m'.lines.length : Int) := by
  obtain ⟨m', c, hu, hl, _, hi⟩ := Update_enter env m hval hs
  refine ⟨m', c, hu, by simp [hl], hi, ?_⟩
  rw [hi, hl]
  simp only [List.length_append, List.length_singleton, Nat.cast_add, Nat.cast_one]
  omega

/-- The input `second` submitted with one line stored: two lines, cursor still `1`. -/
theorem enter_keeps_cursor_witness :
    ∃ m' c, Update sampleEnv (Msg.KeyMsg "enter") enterDemo = some (m', c) ∧
      m'.lines.length = enterDemo.lines.length + 1 ∧ m'.linesIdx = enterDemo.linesIdx ∧
      m'.linesIdx < (m'.lines.length : Int) :=
  enter_keeps_cursor sampleEnv enterDemo (by decide) (by decide) (by decide)

/-- After enter, the next recall backward shows the line before the one just submitted:
the cursor was left at the old line count. -/
theorem enter_then_recall_shows_previous_line :
    ((Update sampleEnv (Msg.KeyMsg "enter") enterDemo).bind
        (fun p => updateLines sampleEnv p.1 (-1))).map
        (fun p => (p.1.lines, p.1.linesIdx, p.1.textarea)) =
      some (["first", "second"], 0, "first") := by
  decide

/-! ## Rendering -/

/-- A message whose role is neither `system` nor `user` adds nothing to the rendered
text. -/
theorem renderLoop_skips_other_roles (env : Env) (r : String → Option String)
    (msg : Message) (h1 : msg.Role ≠ "system") (h2 : msg.Role ≠ "user") (post : List Message) :
    ∀ (pre : List Message) (vp : String),
      renderLoop env r (pre ++ msg :: post) vp = renderLoop env r (pre ++ post) vp := by
  intro pre
  induction pre with
  | nil =>
    intro vp
    simp [renderLoop, h1, h2]
  | cons p ps ih =>
    intro vp
    simp only [List.cons_append, renderLoop]
    split_ifs
    · cases r (TrimSpace p.Content) with
      | none => rfl
      | some out => exact ih _
    · cases r (TrimSpace p.Content) with
      | none => rfl
      | some out => exact ih _
    · exact ih _

/-- What the loop renders when `Render` does not fail: in order, for every message with
the role `system` the label "Assistant: " and the rendered content, for every message
with the role `user` the label "You: " and the rendered content, and nothing for a
message with any other role. -/
theorem renderLoop_eq_join (env : Env) (r : String → Option String) (msgs : List Message)
    (h : ∀ msg ∈ msgs, r (TrimSpace msg.Content) ≠ none) : ∀ vp : String,
    renderLoop env r msgs vp = some (vp ++ String.join (msgs.map (fun msg =>
      if msg.Role = "system" then
        env.sysStyle "Assistant: " ++ (r (TrimSpace msg.Content)).getD ""
      else if msg.Role = "user" then
        env.userStyle "You: " ++ (r (TrimSpace msg.Content)).getD ""
      else ""))) := by
  induction msgs with
  | nil =>
    intro vp
    simp only [renderLoop, List.map_nil, Option.some.injEq]
    apply String.ext
    simp [String.data_append]
  | cons msg rest ih =>
    intro vp
    have hrest := ih (fun x hx => h x (List.mem_cons_of_mem msg hx))
    have hmsg := h msg (List.mem_cons_self msg rest)
    cases hr : r (TrimSpace msg.Content) with
    | none => exact absurd hr hmsg
    | some out =>
      simp only [renderLoop, List.map_cons, join_cons, hr, Option.getD_some]
      split_ifs
      · rw [hrest]
        simp only [String.append_assoc]
      · rw [hrest]
        simp only [String.append_assoc]
      · rw [hrest]
        rfl

/-- C8 (as amended). For every transcript with a first entry (the system prompt) and
every stream buffer, when the renderer is built and `Render` does not fail,
`updateViewport` returns and sets the viewport content to the in-order concatenation,
over the messages after the first, of the label "Assistant: " and the rendered trimmed
content for a message with the role `system` (the role under which the code renders the
assistant's turns), the label "You: " and the rendered trimmed content for a message
with the role `user`, and nothing for a message with any other role; followed by the
label "Assistant: " and the rendered stream buffer when the buffer is non-empty and
differs from the content of the last entry. -/
theorem updateViewport_labels_system_and_user (env : Env) (m : model)
    (r : String → Option String) (first : Message) (rest : List Message)
    (hr : env.NewTermRenderer m.viewport.Width = some r)
    (hm : m.session.Messages = first :: rest)
    (hok : ∀ msg ∈ rest, r (TrimSpace msg.Content) ≠ none)
    (hlat : r m.latest ≠ none) :
    updateViewport env m = some (model.mk
      (env.GotoBottom (Viewport.mk m.viewport.Width m.viewport.Height m.viewport.YOffset
        (String.join (rest.map (fun msg =>
          if msg.Role = "system" then
            env.sysStyle "Assistant: " ++ (r (TrimSpace msg.Content)).getD ""
          else if msg.Role = "user" then
            env.userStyle "You: " ++ (r (TrimSpace msg.Content)).getD ""
          else "")) ++
        (if m.latest ≠ "" ∧ m.latest ≠ (((first :: rest).getLast?).getD first).Content then
          env.sysStyle "Assistant: " ++ (r m.latest).getD ""
        else ""))))
      m.textarea m.latest m.linesIdx m.lines m.linesFile m.lastInput m.session, Cmd.nil) := by
  have hloop := renderLoop_eq_join env r rest hok ""
  have hempty : ∀ s : String, "" ++ s = s := by
    intro s
    apply String.ext
    simp [String.data_append]
  have hright : ∀ s : String, s ++ "" = s := by
    intro s
    apply String.ext
    simp [String.data_append]
  rw [hempty] at hloop
  cases hl : r m.latest with
  | none => exact absurd hl hlat
  | some out =>
    simp only [updateViewport, hr, hm, hloop]
    split_ifs
    · simp only [hl, Option.getD_some, String.append_assoc]
    · simp only [hright]

/-- The history preview renders the same way, on the messages with their tabs
replaced, and without a stream buffer. -/
theorem updateChatModel_labels_system_and_user {L : Type} (env : Env) (henv : HistEnv L)
    (m : histModel L) (sess : ChatSession) (r : String → Option String) (first : Message)
    (rest : List Message)
    (hr : henv.NewTermRenderer m.cv.Width = some r)
    (hm : sess.Messages = first :: rest)
    (hok : ∀ msg ∈ rest, r (TrimSpace (replaceTabs msg.Content)) ≠ none) :
    updateChatModel env henv (some sess) m = some (histModel.mk m.cvToggle m.list
      (Viewport.mk m.cv.Width m.cv.Height m.cv.YOffset
        (String.join (rest.map (fun msg =>
          if msg.Role = "system" then
            env.sysStyle "Assistant: " ++ (r (TrimSpace (replaceTabs msg.Content))).getD ""
          else if msg.Role = "user" then
            env.userStyle "You: " ++ (r (TrimSpace (replaceTabs msg.Content))).getD ""
          else "")))), Cmd.nil) := by
  have hloop := renderLoop_eq_join env r
    (rest.map (fun msg => { msg with Content := replaceTabs msg.Content }))
    (by
      intro msg hmsg
      obtain ⟨x, hx, rfl⟩ := List.mem_map.mp hmsg
      exact hok x hx) ""
  have hempty : ∀ s : String, "" ++ s = s := by
    intro s
    apply String.ext
    simp [String.data_append]
  rw [hempty, List.map_map] at hloop
  simp only [updateChatModel, hr, hm, hloop]
  rfl

/-- The transcript with the reply recorded under the role `system` and the stream
buffer `more`: the content is the user turn, the reply and the provisional block. -/
theorem updateViewport_labels_system_and_user_witness :
    (updateViewport sampleEnv replyDemo).map (fun p => p.1.viewport.content) =
      some "You: hello\nAssistant: Hi there\nAssistant: more\n" := by
  rw [updateViewport_labels_system_and_user sampleEnv replyDemo (fun s => some (s ++ "\n"))
    { Role := "system", Content := "You are a helpful AI assistant." }
    [{ Role := "user", Content := "hello" }, { Role := "system", Content := "Hi there" }]
    rfl rfl (by decide) (by decide)]
  decide

/-- C8 (counterexample). A transcript within the data model of the claim: the system
prompt, the user message "hello" and a message "Hi there" with the role `assistant`,
with an empty stream buffer. The chat view and the history preview both render
"You: hello" only: the message with the role `assistant` is left out, not labelled
"Assistant: ". -/
theorem render_leaves_out_assistant_message :
    (updateViewport sampleEnv renderDemo).map (fun p => p.1.viewport.content) =
        some "You: hello\n" ∧
      (updateChatModel sampleEnv sampleHistEnv (some renderDemo.session) histZero).map
        (fun p => p.1.cv.content) = some "You: hello\n" := by
  decide

/-! ## The line-history file -/

/-- A line without a newline, followed by a newline, is one scanned line. -/
theorem scanLinesAux_line (line rest : List Char) (hnl : '\n' ∉ line) : ∀ cur : List Char,
    scanLinesAux cur (line ++ '\n' :: rest) = (cur.reverse ++ line) :: scanLinesAux [] rest := by
  induction line with
  | nil =>
    intro cur
    simp [scanLinesAux]
  | cons c cs ih =>
    intro cur
    have hc : ¬ (c = '\n') := fun h => hnl (by rw [h]; exact List.mem_cons_self _ _)
    have hcs : '\n' ∉ cs := fun h => hnl (List.mem_cons_of_mem c h)
    simp [scanLinesAux, hc, ih hcs (c :: cur)]

/-- Text after a newline is scanned on its own. -/
theorem scanLinesAux_append (pre rest : List Char) : ∀ cur : List Char,
    scanLinesAux cur ((pre ++ ['\n']) ++ rest) =
      scanLinesAux cur (pre ++ ['\n']) ++ scanLinesAux [] rest := by
  induction pre with
  | nil =>
    intro cur
    simp [scanLinesAux]
  | cons c cs ih =>
    intro cur
    by_cases hc : c = '\n'
    · have := ih []
      simp only [List.append_assoc, List.singleton_append] at this
      simp [scanLinesAux, hc, this]
    · have := ih (c :: cur)
      simp only [List.append_assoc, List.singleton_append] at this
      simp [scanLinesAux, hc, this]

/-- The tokens of two runs of lines, when the first run has no line that is too long. -/
theorem scanTokens_append (a b : List (List Char)) (h : (scanTokens a).2 = false) :
    scanTokens (a ++ b) = ((scanTokens a).1 ++ (scanTokens b).1, (scanTokens b).2) := by
  induction a with
  | nil => simp [scanTokens]
  | cons x xs ih =>
    by_cases hx : MaxScanTokenSize ≤ (String.mk x).utf8ByteSize
    · simp only [scanTokens] at h
      rw [if_pos hx] at h
      exact absurd h (by simp)
    · have hxs : (scanTokens xs).2 = false := by
        simp only [scanTokens] at h
        rw [if_neg hx] at h
        exact h
      have hcons : (x :: xs) ++ b = x :: (xs ++ b) := rfl
      rw [hcons]
      simp only [scanTokens, hx, if_false, ih hxs, List.cons_append]

/-- What `trimLeft` returns does not begin with white space. -/
theorem trimLeft_head (l : List Char) (c : Char) (r : List Char) (h : trimLeft l = c :: r) :
    isSpace c = false := by
  induction l with
  | nil => simp [trimLeft] at h
  | cons a as ih =>
    simp only [trimLeft] at h
    split_ifs at h with ha
    · exact ih h
    · simp only [List.cons.injEq] at h
      rw [← h.1]
      simpa using ha

/-- What `trimLeft` returns is the end of its argument. -/
theorem trimLeft_suffix (l : List Char) : ∃ p, l = p ++ trimLeft l := by
  induction l with
  | nil => exact ⟨[], rfl⟩
  | cons a as ih =>
    simp only [trimLeft]
    split_ifs
    · obtain ⟨p, hp⟩ := ih
      exact ⟨a :: p, by rw [List.cons_append, ← hp]⟩
    · exact ⟨[], rfl⟩

/-- Trimming on the left twice is trimming once. -/
theorem trimLeft_idem (l : List Char) : trimLeft (trimLeft l) = trimLeft l := by
  cases h : trimLeft l with
  | nil => rfl
  | cons c r =>
    have := trimLeft_head l c r h
    simp [trimLeft, this]

/-- A trimmed text, written last character first, does not begin with white space:
its last character is the first one left after trimming on the left. -/
theorem trimSpace_data_head (v : String) (c : Char) (r : List Char)
    (h : (trimLeft (trimLeft v.data).reverse).reverse = c :: r) : isSpace c = false := by
  obtain ⟨p, hp⟩ := trimLeft_suffix (trimLeft v.data).reverse
  have hrev : trimLeft v.data = (c :: r) ++ p.reverse := by
    have h2 := congrArg List.reverse hp
    rw [List.reverse_reverse, List.reverse_append, h] at h2
    exact h2
  exact trimLeft_head v.data c (r ++ p.reverse) (by simpa using hrev)

/-- Go `strings.TrimSpace` returns a text it leaves alone. -/
theorem TrimSpace_idem (v : String) : TrimSpace (TrimSpace v) = TrimSpace v := by
  apply String.ext
  simp only [TrimSpace]
  cases h : (trimLeft (trimLeft v.data).reverse).reverse with
  | nil => rfl
  | cons c r =>
    have hc := trimSpace_data_head v c r h
    have h1 : trimLeft (c :: r) = c :: r := by simp [trimLeft, hc]
    rw [h1, ← h, List.reverse_reverse, trimLeft_idem]

/-- A trimmed text does not end in a carriage return, so `dropCR` leaves it alone. -/
theorem dropCR_TrimSpace (v : String) : dropCR (TrimSpace v).data = (TrimSpace v).data := by
  simp only [TrimSpace, dropCR, List.reverse_reverse]
  split
  · rename_i r hr
    have := trimLeft_head _ _ _ hr
    exact absurd this (by decide)
  · rfl

/-- The lines of a file that is empty or ends in a newline, with one more line
appended. -/
theorem scanLinesAux_file_append (F line : List Char) (hF : F = [] ∨ ∃ pre, F = pre ++ ['\n'])
    (hnl : '\n' ∉ line) :
    scanLinesAux [] (F ++ (line ++ ['\n'])) = scanLinesAux [] F ++ [line] := by
  have hline : scanLinesAux [] (line ++ ['\n']) = [line] := by
    have := scanLinesAux_line line [] hnl []
    simpa [scanLinesAux] using this
  rcases hF with rfl | ⟨pre, rfl⟩
  · simpa [scanLinesAux] using hline
  · rw [scanLinesAux_append, hline]

/-- Reading back a file to which a trimmed input without a line break, and a newline,
were appended: the lines read before, and the input as one more line. -/
theorem readLines_append_line (F v : String) (m0 : model)
    (hF : F.data = [] ∨ ∃ pre, F.data = pre ++ ['\n'])
    (hnl : '\n' ∉ (TrimSpace v).data)
    (hsize : (TrimSpace v).utf8ByteSize < MaxScanTokenSize)
    (hscan : (readLines F m0).2 = false) :
    (readLines (F ++ (TrimSpace v ++ "\n")) m0).1.lines =
        (readLines F m0).1.lines ++ [TrimSpace v] ∧
      (readLines (F ++ (TrimSpace v ++ "\n")) m0).2 = false := by
  have hdata : (F ++ (TrimSpace v ++ "\n")).data = F.data ++ ((TrimSpace v).data ++ ['\n']) := by
    simp [String.data_append]
  have hscan' : (scanTokens (scanLinesAux [] F.data)).2 = false := hscan
  have hlast : scanTokens [(TrimSpace v).data] = ([TrimSpace v], false) := by
    have hlt : ¬ (MaxScanTokenSize ≤ (String.mk (TrimSpace v).data).utf8ByteSize) := by
      simpa using hsize
    simp only [scanTokens]
    rw [if_neg hlt, dropCR_TrimSpace]
  have htok : scanTokens (scanLinesAux [] (F ++ (TrimSpace v ++ "\n")).data) =
      ((scanTokens (scanLinesAux [] F.data)).1 ++ [TrimSpace v], false) := by
    rw [hdata, scanLinesAux_file_append F.data _ hF hnl, scanTokens_append _ _ hscan', hlast]
  constructor
  · simp only [readLines, htok, List.map_append, List.map_cons, List.map_nil, TrimSpace_idem,
      List.append_assoc]
  · simp only [readLines, htok]

/-- One step of the round trip of the line-history file: when enter is handled with an
input whose trimmed text is non-empty, has no line break and fits the scanner's buffer,
and the file so far is empty or ends in a newline and scans without an error, then the
stored lines grow by the trimmed input, and the file afterwards reads back as the lines
it read back as before followed by that same input. -/
theorem line_history_roundtrip_step (env : Env) (m fresh : model)
    (hval : TrimSpace (env.textareaUpdate (Msg.KeyMsg "enter") m.textarea) ≠ "")
    (hs : (env.Stream m.session
      (TrimSpace (env.textareaUpdate (Msg.KeyMsg "enter") m.textarea))).1.Messages ≠ [])
    (hnl : '\n' ∉ (TrimSpace (env.textareaUpdate (Msg.KeyMsg "enter") m.textarea)).data)
    (hsize : (TrimSpace (env.textareaUpdate (Msg.KeyMsg "enter") m.textarea)).utf8ByteSize <
      MaxScanTokenSize)
    (hF : m.linesFile.data = [] ∨ ∃ pre, m.linesFile.data = pre ++ ['\n'])
    (hscan : (readLines m.linesFile fresh).2 = false) :
    ∃ m' c, Update env (Msg.KeyMsg "enter") m = some (m', c) ∧
      m'.lines = m.lines ++ [TrimSpace (env.textareaUpdate (Msg.KeyMsg "enter") m.textarea)] ∧
      (readLines m'.linesFile fresh).1.lines = (readLines m.linesFile fresh).1.lines ++
        [TrimSpace (env.textareaUpdate (Msg.KeyMsg "enter") m.textarea)] ∧
      (readLines m'.linesFile fresh).2 = false ∧
      (∃ pre, m'.linesFile.data = pre ++ ['\n']) := by
  obtain ⟨m', c, hu, hl, hf, _⟩ := Update_enter env m hval hs
  obtain ⟨h1, h2⟩ := readLines_append_line m.linesFile _ fresh hF hnl hsize hscan
  refine ⟨m', c, hu, hl, ?_, ?_, ?_⟩
  · rw [hf]
    exact h1
  · rw [hf]
    exact h2
  · exact ⟨m.linesFile.data ++
      (TrimSpace (env.textareaUpdate (Msg.KeyMsg "enter") m.textarea)).data, by
        rw [hf]
        simp [String.data_append]⟩

/-- C10. The input box holds the two lines `a` and `b` when enter is handled: the
session stores one line, the file gains the text `a`, newline, `b`, newline, and
`readLines` reads that file back as two lines. -/
theorem line_history_file_splits_multiline_input :
    (Update sampleEnv (Msg.KeyMsg "enter")
        { newModel "" sampleSession with textarea := "a\nb" }).map
      (fun p => (p.1.lines, p.1.linesFile, (newModel p.1.linesFile sampleSession).lines,
        (newModel p.1.linesFile sampleSession).linesIdx)) =
      some (["a\nb"], "a\nb\n", ["a", "b"], 2) := by
  decide

/-! ## Loading the history list -/

/-- A non-empty result of `extRev` is the dot followed by what was passed before it. -/
theorem extRev_eq (l : List Char) : ∀ (acc r : List Char), extRev acc l = r → r ≠ [] →
    ∃ pre post, l = pre ++ '.' :: post ∧ r = '.' :: (pre.reverse ++ acc) := by
  induction l with
  | nil =>
    intro acc r h hr
    exact absurd h.symm hr
  | cons c rest ih =>
    intro acc r h hr
    simp only [extRev] at h
    split_ifs at h with h1 h2
    · exact absurd h.symm hr
    · exact ⟨[], rest, by simp [h2], by simp [h.symm]⟩
    · obtain ⟨pre, post, hl, hr'⟩ := ih (c :: acc) r h hr
      exact ⟨c :: pre, post, by simp [hl], by simp [hr']⟩

/-- A name with the extension `.json` ends in the letter `n`. -/
theorem getLast_of_Ext_json (s : String) (h : Ext s = ".json") :
    s.data.getLast? = some 'n' := by
  have h1 : extRev [] s.data.reverse = ['.', 'j', 's', 'o', 'n'] := by
    have := congrArg String.data h
    simpa [Ext] using this
  obtain ⟨pre, post, hl, hr⟩ := extRev_eq _ _ _ h1 (by simp)
  simp only [List.append_nil, List.cons.injEq, true_and] at hr
  have hpre : pre = ['n', 'o', 's', 'j'] := by
    have := congrArg List.reverse hr
    simpa using this.symm
  subst hpre
  have : s.data = (post.reverse ++ ['.', 'j', 's', 'o']) ++ ['n'] := by
    have := congrArg List.reverse hl
    simpa using this
  rw [this, List.getLast?_append]
  simp

/-- The text `takeDigits` splits is its two parts put together. -/
theorem takeDigits_append (l : List Char) : (takeDigits l).1 ++ (takeDigits l).2 = l := by
  induction l with
  | nil => rfl
  | cons c cs ih =>
    simp only [takeDigits]
    split_ifs
    · simp [ih]
    · simp

/-- A zone ends in `Z` or in a digit. -/
theorem parseZone_last (z : List Char) (o : Int) (h : parseZone z = some o) :
    ∃ c, z.getLast? = some c ∧ (c = 'Z' ∨ isDigit c = true) := by
  unfold parseZone at h
  split at h
  · exact ⟨'Z', rfl, Or.inl rfl⟩
  · rename_i s h1 h2 m1 m2
    refine ⟨m2, by simp, Or.inr ?_⟩
    by_cases hs : s = '+' ∨ s = '-'
    · simp only [hs, if_true] at h
      cases hm : num [m1, m2] with
      | none =>
        cases hh : num [h1, h2] <;> simp [hh, hm] at h
      | some mv =>
        simp only [num] at hm
        split_ifs at hm with hall
        simp only [List.all_cons, List.all_nil, Bool.and_true, Bool.and_eq_true] at hall
        exact hall.2
    · simp [hs] at h
  · exact absurd h (by simp)

/-- What `parseFracZone` accepts ends in `Z` or in a digit. -/
theorem parseFracZone_last (l : List Char) (x : Nat × Int) (h : parseFracZone l = some x) :
    ∃ c, l.getLast? = some c ∧ (c = 'Z' ∨ isDigit c = true) := by
  cases l with
  | nil => simp [parseFracZone] at h
  | cons c rest =>
    simp only [parseFracZone] at h
    split_ifs at h with hc
    · cases hz : parseZone (takeDigits rest).2 with
      | none => simp [hz] at h
      | some o =>
        obtain ⟨d, hd, hd'⟩ := parseZone_last _ _ hz
        refine ⟨d, ?_, hd'⟩
        have hsplit : c :: rest = (c :: (takeDigits rest).1) ++ (takeDigits rest).2 := by
          simp [takeDigits_append]
        rw [hsplit, List.getLast?_append, hd]
        rfl
    · cases hz : parseZone (c :: rest) with
      | none => simp [hz] at h
      | some o => exact parseZone_last _ _ hz

/-- A timestamp `parseRFC3339` accepts ends in `Z` or in a digit. -/
theorem parseRFC3339_last (s : String) (t : Time) (h : parseRFC3339 s = some t) :
    ∃ c, s.data.getLast? = some c ∧ (c = 'Z' ∨ isDigit c = true) := by
  unfold parseRFC3339 at h
  split at h
  · rename_i y1 y2 y3 y4 mo1 mo2 d1 d2 h1 h2 mi1 mi2 s1 s2 rest hdata
    cases hf : parseFracZone rest with
    | none => simp [hf] at h
    | some x =>
      obtain ⟨c, hc, hc'⟩ := parseFracZone_last _ _ hf
      refine ⟨c, ?_, hc'⟩
      rw [hdata]
      have : y1 :: y2 :: y3 :: y4 :: '-' :: mo1 :: mo2 :: '-' :: d1 :: d2 :: 'T' :: h1 :: h2 ::
          ':' :: mi1 :: mi2 :: ':' :: s1 :: s2 :: rest =
          [y1, y2, y3, y4, '-', mo1, mo2, '-', d1, d2, 'T', h1, h2, ':', mi1, mi2, ':', s1, s2] ++
            rest := rfl
      rw [this, List.getLast?_append, hc]
      rfl
  · exact absurd h (by simp)

/-- The name of a session file never parses as a timestamp: `time.Parse` is given the
whole name, and the extension `.json` is text left over after the zone. -/
theorem parseRFC3339_json_name (s : String) (h : Ext s = ".json") : parseRFC3339 s = none := by
  cases hp : parseRFC3339 s with
  | none => rfl
  | some t =>
    obtain ⟨c, hc, hc'⟩ := parseRFC3339_last s t hp
    rw [getLast_of_Ext_json s h] at hc
    have hcn : c = 'n' := by
      simpa using hc.symm
    subst hcn
    rcases hc' with h1 | h1
    · exact absurd h1 (by decide)
    · exact absurd h1 (by decide)

/-- One insertion step keeps the elements. -/
theorem insertRev_perm {α : Type} (less : α → α → Bool) (x : α) (l : List α) :
    (insertRev less x l).Perm (x :: l) := by
  induction l with
  | nil => exact List.Perm.refl _
  | cons y ys ih =>
    simp only [insertRev]
    split_ifs
    · exact ((List.Perm.cons y ih).trans (List.Perm.swap x y ys))
    · exact List.Perm.refl _

/-- The insertion sort keeps the elements. -/
theorem insertionSortRev_perm {α : Type} (less : α → α → Bool) (l : List α) :
    ∀ acc : List α, (insertionSortRev less l acc).Perm (acc ++ l) := by
  induction l with
  | nil =>
    intro acc
    simp [insertionSortRev]
  | cons x xs ih =>
    intro acc
    simp only [insertionSortRev]
    refine (ih (insertRev less x acc)).trans ?_
    refine (List.Perm.append_right xs (insertRev_perm less x acc)).trans ?_
    simpa using (@List.perm_middle _ x acc xs).symm

/-- The result of `sort.Slice` is a permutation of the slice. -/
theorem sortSlice_perm {α : Type} (less : α → α → Bool) (l : List α) :
    (sortSlice less l).Perm l := by
  simpa [sortSlice] using insertionSortRev_perm less l []

/-- When every entry that is not skipped opens and decodes, the loop appends the item of
each such entry, in directory order. -/
theorem loadLoop_ok {L : Type} (henv : HistEnv L) (dir : List DirEntry) :
    ∀ acc : List histitem,
    (∀ f ∈ dir, candidate f = true → f.openErr = false ∧ henv.decode f.content ≠ none) →
    loadLoop henv dir acc = Except.ok (acc ++ dir.filterMap (itemOf henv)) := by
  induction dir with
  | nil =>
    intro acc _
    simp [loadLoop]
  | cons f fs ih =>
    intro acc h
    have hfs : ∀ g ∈ fs, candidate g = true → g.openErr = false ∧ henv.decode g.content ≠ none :=
      fun g hg => h g (List.mem_cons_of_mem f hg)
    by_cases hext : Ext f.Name = ".json"
    · by_cases hsize : f.Size = 0
      · have hc : ¬ (candidate f = true ∧ f.openErr = false) := by simp [candidate, hsize]
        simp [loadLoop, hext, hsize, ih acc hfs, itemOf, hc, List.filterMap_cons]
      · have hc : candidate f = true := by simp [candidate, hext, hsize]
        obtain ⟨ho, hd⟩ := h f (List.mem_cons_self f fs) hc
        cases hdec : henv.decode f.content with
        | none => exact absurd hdec hd
        | some sess =>
          simp [loadLoop, hext, hsize, ho, hdec, ih _ hfs, itemOf, hc, List.filterMap_cons]
    · have hc : ¬ (candidate f = true ∧ f.openErr = false) := by simp [candidate, hext]
      simp [loadLoop, hext, ih acc hfs, itemOf, hc, List.filterMap_cons]

/-- An entry that is not skipped and does not open or decode makes the loop return an
error. -/
theorem loadLoop_error {L : Type} (henv : HistEnv L) (dir : List DirEntry) :
    ∀ acc : List histitem,
    (∃ f ∈ dir, candidate f = true ∧ (f.openErr = true ∨ henv.decode f.content = none)) →
    ∃ e, loadLoop henv dir acc = Except.error e := by
  induction dir with
  | nil =>
    intro acc h
    obtain ⟨f, hf, _⟩ := h
    exact absurd hf (List.not_mem_nil f)
  | cons f fs ih =>
    intro acc h
    by_cases hbad : candidate f = true ∧ (f.openErr = true ∨ henv.decode f.content = none)
    · obtain ⟨hc, hb⟩ := hbad
      simp only [candidate, Bool.and_eq_true, decide_eq_true_eq] at hc
      by_cases ho : f.openErr = true
      · exact ⟨"could not open history file", by simp [loadLoop, hc.1, hc.2, ho]⟩
      · have hd : henv.decode f.content = none := by
          rcases hb with hb | hb
          · exact absurd hb ho
          · exact hb
        exact ⟨"could not decode history file", by simp [loadLoop, hc.1, hc.2, ho, hd]⟩
    · have hrest : ∃ g ∈ fs, candidate g = true ∧
          (g.openErr = true ∨ henv.decode g.content = none) := by
        obtain ⟨g, hg, hgb⟩ := h
        rcases List.mem_cons.mp hg with rfl | hg'
        · exact absurd hgb hbad
        · exact ⟨g, hg', hgb⟩
      simp only [loadLoop]
      split_ifs with h1 h2 h3
      · exact ih acc hrest
      · exact ih acc hrest
      · exact ⟨_, rfl⟩
      · cases hdec : henv.decode f.content with
        | none => exact ⟨_, rfl⟩
        | some sess => exact ih _ hrest

/-- Every item the loop appends has the zero date: the name it parses ends in `.json`. -/
theorem loadLoop_dates {L : Type} (henv : HistEnv L) (dir : List DirEntry) :
    ∀ (acc items : List histitem), loadLoop henv dir acc = Except.ok items →
    (∀ it ∈ acc, it.date = zeroTime) → ∀ it ∈ items, it.date = zeroTime := by
  induction dir with
  | nil =>
    intro acc items h hacc
    simp only [loadLoop, Except.ok.injEq] at h
    subst h
    exact hacc
  | cons f fs ih =>
    intro acc items h hacc
    simp only [loadLoop] at h
    split_ifs at h with h1 h2 h3
    · exact ih acc items h hacc
    · exact ih acc items h hacc
    · cases hdec : henv.decode f.content with
      | none => simp [hdec] at h
      | some sess =>
        simp only [hdec] at h
        refine ih _ items h ?_
        intro it hit
        rcases List.mem_append.mp hit with hit | hit
        · exact hacc it hit
        · have hp : parseRFC3339 f.Name = none := parseRFC3339_json_name f.Name (by simpa using h1)
          simp only [List.mem_singleton] at hit
          subst hit
          simp [hp]

/-- The file names of the items built are the names of the entries that are not
skipped, when all of those open and decode. -/
theorem filterMap_itemOf_files {L : Type} (henv : HistEnv L) (dir : List DirEntry) :
    (∀ f ∈ dir, candidate f = true → f.openErr = false ∧ henv.decode f.content ≠ none) →
    (dir.filterMap (itemOf henv)).map (fun it => it.file) =
      (dir.filter (fun f => candidate f)).map (fun f => f.Name) := by
  induction dir with
  | nil =>
    intro _
    rfl
  | cons f fs ih =>
    intro h
    have hfs := ih (fun g hg => h g (List.mem_cons_of_mem f hg))
    by_cases hc : candidate f = true
    · obtain ⟨ho, hd⟩ := h f (List.mem_cons_self f fs) hc
      cases hdec : henv.decode f.content with
      | none => exact absurd hdec hd
      | some sess =>
        simp [List.filterMap_cons, itemOf, hc, ho, hdec, List.filter_cons, hfs]
    · simp [List.filterMap_cons, itemOf, hc, List.filter_cons, hfs]

/-- C3 (as amended). For every history directory: entries that are not `.json` files and
zero-byte `.json` files are left out without an error; when every non-empty `.json` file
opens and decodes, `loadList` succeeds and hands the list widget exactly the items of
the non-empty `.json` files (a permutation of them, one per file name); when some
non-empty `.json` file does not open or decode, `loadList` returns an error and leaves
the model, and so the list shown, as it was. -/
theorem loadList_loads_all_or_fails {L : Type} (henv : HistEnv L) (dir : List DirEntry)
    (m : histModel L) :
    ((∀ f ∈ dir, candidate f = true → f.openErr = false ∧ henv.decode f.content ≠ none) →
      ∃ items, loadItems henv dir = Except.ok items ∧
        loadList henv (some dir) m =
          ({ m with list := if henv.Items m.list = none
              then henv.SetTitle (henv.New items) "Chat History"
              else henv.SetItems m.list items }, none) ∧
        items.Perm (dir.filterMap (itemOf henv)) ∧
        (items.map (fun it => it.file)).Perm
          ((dir.filter (fun f => candidate f)).map (fun f => f.Name))) ∧
    ((∃ f ∈ dir, candidate f = true ∧ (f.openErr = true ∨ henv.decode f.content = none)) →
      ∃ e, loadList henv (some dir) m = (m, some e)) := by
  constructor
  · intro h
    have hloop := loadLoop_ok henv dir [] h
    simp only [List.nil_append] at hloop
    have hperm := sortSlice_perm (fun a b : histitem => a.date.Before b.date)
      (dir.filterMap (itemOf henv))
    refine ⟨sortSlice (fun a b => a.date.Before b.date) (dir.filterMap (itemOf henv)), ?_, ?_,
      hperm, ?_⟩
    · simp [loadItems, hloop]
    · simp only [loadList, loadItems, hloop]
      split_ifs <;> rfl
    · rw [← filterMap_itemOf_files henv dir h]
      exact hperm.map _
  · intro h
    obtain ⟨e, he⟩ := loadLoop_error henv dir [] h
    exact ⟨e, by simp [loadList, loadItems, he]⟩

/-- The directory `goodDir` loads, the directory `mixedDir` makes `loadList` fail. -/
theorem loadList_loads_all_or_fails_witness :
    (∃ items, loadItems sampleHistEnv goodDir = Except.ok items ∧
        loadList sampleHistEnv (some goodDir) histZero =
          ({ histZero with list := if sampleHistEnv.Items histZero.list = none
              then sampleHistEnv.SetTitle (sampleHistEnv.New items) "Chat History"
              else sampleHistEnv.SetItems histZero.list items }, none) ∧
        items.Perm (goodDir.filterMap (itemOf sampleHistEnv)) ∧
        (items.map (fun it => it.file)).Perm
          ((goodDir.filter (fun f => candidate f)).map (fun f => f.Name))) ∧
    (∃ e, loadList sampleHistEnv (some mixedDir) histZero = (histZero, some e)) :=
  ⟨(loadList_loads_all_or_fails sampleHistEnv goodDir histZero).1 (by decide),
   (loadList_loads_all_or_fails sampleHistEnv mixedDir histZero).2
     ⟨{ Name := "2024-01-02T10:00:00Z.json", content := "\x7b", openErr := false },
       by decide, by decide⟩⟩

/-- C3 (counterexample). A directory with a session file that decodes, a non-empty
`.json` file with invalid content and a zero-byte `.json` file: `loadList` returns the
error "could not decode history file" and loads nothing, the valid file included. -/
theorem loadList_invalid_file_fails :
    loadList sampleHistEnv (some mixedDir) histZero =
      (histZero, some "could not decode history file") := by
  decide

/-- C9. Every item `loadList` loads carries the zero time as its date, whatever
timestamp its file name carries before `.json`: the whole name, extension included, is
what `time.Parse` is given, and that never parses. -/
theorem loaded_dates_are_zero {L : Type} (henv : HistEnv L) (dir : List DirEntry)
    (items : List histitem) (h : loadItems henv dir = Except.ok items) :
    ∀ it ∈ items, it.date = zeroTime := by
  unfold loadItems at h
  cases hl : loadLoop henv dir [] with
  | error e => simp [hl] at h
  | ok raw =>
    simp only [hl, Except.ok.injEq] at h
    subst h
    intro it hit
    have hmem : it ∈ raw := (sortSlice_perm _ raw).mem_iff.mp hit
    exact loadLoop_dates henv dir [] raw hl (fun _ hx => absurd hx (List.not_mem_nil _)) it hmem

/-- The two session files of `goodDir`: both dates are the zero time, while the
timestamps before `.json` parse to the instants the names carry. -/
theorem loaded_dates_are_zero_witness :
    loadItems sampleHistEnv goodDir = Except.ok goodItems ∧
      (∀ it ∈ goodItems, it.date = zeroTime) ∧
      parseRFC3339 "2024-01-01T10:00:00Z" = some { sec := 1704103200, nsec := 0 } ∧
      parseRFC3339 "2024-01-02T10:00:00Z" = some { sec := 1704189600, nsec := 0 } :=
  ⟨rfl, loaded_dates_are_zero sampleHistEnv goodDir goodItems rfl, by decide, by decide⟩

/-! ## Deleting a session -/

/-- When the loop succeeds, every entry it did not skip opened and decoded. -/
theorem loadLoop_ok_all {L : Type} (henv : HistEnv L) (dir : List DirEntry)
    (acc items : List histitem) (h : loadLoop henv dir acc = Except.ok items) :
    ∀ f ∈ dir, candidate f = true → f.openErr = false ∧ henv.decode f.content ≠ none := by
  intro f hf hc
  by_contra hbad
  have hb : f.openErr = true ∨ henv.decode f.content = none := by
    by_cases ho : f.openErr = true
    · exact Or.inl ho
    · right
      by_contra hd
      exact hbad ⟨by simpa using ho, hd⟩
  obtain ⟨e, he⟩ := loadLoop_error henv dir acc ⟨f, hf, hc, hb⟩
  rw [he] at h
  exact absurd h (by simp)

/-- An item comes from an entry with the same name that is not skipped. -/
theorem itemOf_some {L : Type} (henv : HistEnv L) (f : DirEntry) (it : histitem)
    (h : itemOf henv f = some it) : it.file = f.Name ∧ candidate f = true := by
  unfold itemOf at h
  split_ifs at h with hc
  cases hd : henv.decode f.content with
  | none => simp [hd] at h
  | some sess =>
    simp only [hd, Option.map_some', Option.some.injEq] at h
    subst h
    exact ⟨rfl, hc.1⟩

/-- In a directory, where names are distinct, `os.Remove` of the name of an entry
removes that entry. -/
theorem removeFile_of_mem (dir : List DirEntry) (f : DirEntry) (hf : f ∈ dir)
    (hnodup : (dir.map (fun g => g.Name)).Nodup) :
    removeFile f.Name dir = some (dir.erase f) := by
  induction dir with
  | nil => exact absurd hf (List.not_mem_nil f)
  | cons g gs ih =>
    simp only [List.map_cons, List.nodup_cons] at hnodup
    by_cases hgf : g = f
    · subst hgf
      simp [removeFile]
    · have hmem : f ∈ gs := by
        rcases List.mem_cons.mp hf with h | h
        · exact absurd h.symm hgf
        · exact h
      have hname : ¬ (g.Name = f.Name) := by
        intro hn
        exact hnodup.1 (by rw [hn]; exact List.mem_map_of_mem (fun g => g.Name) hmem)
      have hne : (g == f) = false := by simpa using hgf
      simp [removeFile, hname, ih hmem hnodup.2, List.erase_cons, hne]

/-- What `loadItems` returns when it succeeds: the items of the entries not skipped,
sorted. -/
theorem loadItems_ok_eq {L : Type} (henv : HistEnv L) (dir : List DirEntry)
    (items : List histitem) (h : loadItems henv dir = Except.ok items) :
    (∀ f ∈ dir, candidate f = true → f.openErr = false ∧ henv.decode f.content ≠ none) ∧
      items = sortSlice (fun a b => a.date.Before b.date) (dir.filterMap (itemOf henv)) := by
  unfold loadItems at h
  cases hl : loadLoop henv dir [] with
  | error e => simp [hl] at h
  | ok raw =>
    have hall := loadLoop_ok_all henv dir [] raw hl
    have hraw := loadLoop_ok henv dir [] hall
    rw [hl] at hraw
    simp only [List.nil_append, Except.ok.injEq] at hraw
    simp only [hl, Except.ok.injEq] at h
    exact ⟨hall, by rw [← h, hraw]⟩

/-- C4 (as amended). The list was loaded from a directory (distinct file names) and
holds `L ≥ 1` items, the item at index `i` is selected and deleted: `rm` succeeds, the
file is gone, the list is reloaded from the remaining files and has `L - 1` items, and
the selection index is `i`, the index before the deletion, passed to `Select`
unchanged. The list widget is used through its methods, of which `ListLaws` states
what is relied on. -/
theorem rm_reloads_and_keeps_index {L : Type} (henv : HistEnv L) (laws : ListLaws henv)
    (dir : List DirEntry) (m : histModel L) (items : List histitem) (i : Nat) (item : histitem)
    (hnodup : (dir.map (fun g => g.Name)).Nodup)
    (hload : loadItems henv dir = Except.ok items)
    (hlist : henv.Items m.list = some items)
    (hidx : henv.Index m.list = (i : Int))
    (hitem : items[i]? = some item) :
    ∃ dir' m' items', rm henv dir m item = (dir', m', none) ∧
      removeFile item.file dir = some dir' ∧
      loadItems henv dir' = Except.ok items' ∧
      henv.Items m'.list = some items' ∧
      items'.length + 1 = items.length ∧
      henv.Index m'.list = (i : Int) := by
  obtain ⟨hall, hitems⟩ := loadItems_ok_eq henv dir items hload
  have hperm : items.Perm (dir.filterMap (itemOf henv)) := by
    rw [hitems]
    exact sortSlice_perm _ _
  have hmem : item ∈ dir.filterMap (itemOf henv) :=
    hperm.mem_iff.mp (List.mem_iff_getElem?.mpr ⟨i, hitem⟩)
  obtain ⟨f, hf, hfi⟩ := List.mem_filterMap.mp hmem
  obtain ⟨hname, _⟩ := itemOf_some henv f item hfi
  have hrem : removeFile item.file dir = some (dir.erase f) := by
    rw [hname]
    exact removeFile_of_mem dir f hf hnodup
  have hall' : ∀ g ∈ dir.erase f, candidate g = true →
      g.openErr = false ∧ henv.decode g.content ≠ none :=
    fun g hg => hall g (List.mem_of_mem_erase hg)
  have hloop' := loadLoop_ok henv (dir.erase f) [] hall'
  simp only [List.nil_append] at hloop'
  have hload' : loadItems henv (dir.erase f) = Except.ok
      (sortSlice (fun a b => a.date.Before b.date) ((dir.erase f).filterMap (itemOf henv))) := by
    simp [loadItems, hloop']
  have hlen : (sortSlice (fun a b : histitem => a.date.Before b.date)
      ((dir.erase f).filterMap (itemOf henv))).length + 1 = items.length := by
    rw [(sortSlice_perm _ _).length_eq, hperm.length_eq]
    have hp : (dir.filterMap (itemOf henv)).Perm
        ((f :: dir.erase f).filterMap (itemOf henv)) :=
      (List.perm_cons_erase hf).filterMap _
    rw [hp.length_eq, List.filterMap_cons, hfi]
    simp
  have hne : ¬ (henv.Items m.list = none) := by
    rw [hlist]
    simp
  generalize sortSlice (fun a b : histitem => a.date.Before b.date)
    ((dir.erase f).filterMap (itemOf henv)) = items' at hload' hlen
  refine ⟨dir.erase f,
    { cvToggle := m.cvToggle, cv := m.cv,
      list := henv.Select (henv.SetItems m.list items') (henv.Index m.list) },
    items', ?_, hrem, hload', ?_, hlen, ?_⟩
  · simp only [rm, hrem, loadList, hload', hne, if_false]
  · simp only [laws.items_select, laws.items_setItems]
  · simp only [hidx, laws.index_select]

/-- The last of two listed sessions is deleted: one item is left and the index is
still `1`. -/
theorem rm_reloads_and_keeps_index_witness :
    ∃ dir' m' items', rm sampleHistEnv goodDir loadedTwo lastGoodItem = (dir', m', none) ∧
      removeFile lastGoodItem.file goodDir = some dir' ∧
      loadItems sampleHistEnv dir' = Except.ok items' ∧
      sampleHistEnv.Items m'.list = some items' ∧
      items'.length + 1 = goodItems.length ∧
      sampleHistEnv.Index m'.list = ((1 : Nat) : Int) :=
  rm_reloads_and_keeps_index sampleHistEnv
    ⟨fun _ _ => rfl, fun _ _ => rfl, fun _ _ => rfl⟩ goodDir loadedTwo goodItems 1 lastGoodItem
    (by decide) rfl rfl rfl rfl

/-- C4 (counterexample). Two sessions are listed, as loaded from `goodDir`, and the
second, at index `1`, is deleted, with a list widget that holds the index `Select`
gives it: `rm` succeeds, the list has one item, and the selection index is `1`, not
`min(1, 0) = 0`: it is not an index of the new list, and no item is selected. -/
theorem rm_last_item_leaves_index_out_of_range :
    (loadList sampleHistEnv (some goodDir) histZero).1.list.items = some goodItems ∧
      (rm sampleHistEnv goodDir loadedTwo lastGoodItem).2.2 = none ∧
      sampleHistEnv.Index (rm sampleHistEnv goodDir loadedTwo lastGoodItem).2.1.list = 1 ∧
      (sampleHistEnv.Items (rm sampleHistEnv goodDir loadedTwo lastGoodItem).2.1.list).map
        List.length = some 1 ∧
      sampleHistEnv.SelectedItem (rm sampleHistEnv goodDir loadedTwo lastGoodItem).2.1.list =
        none := by
  decide

end Oai
